import Mathlib

/-!
# tiny-http-proxy: the disk-backed cache (`cache.go`)

A shallow embedding of `cache.go` and proofs about it.

* Go's `[]byte` is `Bytes = Option (List Byte)`: `none` is the nil slice, `some l` a
  non-nil slice (`some []` is the empty, non-nil slice). The source tests
  `content == nil`, so the two are kept apart.
* Go's `map[string]V` is a function `String → Option V`; `none` is an absent key.
* A `*sync.Mutex` is an address (`Nat`); the state of every mutex lives in `Sys.locked`.
  `Lock` on a held mutex never returns: the call is `Run.blocked`.
* The file system (`ioutil.ReadDir`, `ReadFile`, `WriteFile`) is a finite table from
  resolved paths to nodes.
* `crypto/sha256.Sum256` is a parameter `sum256 : List Byte → Array32`.
* The calls to the loggers `Debug.Printf` and `Error.Printf` have no effect on the cache
  and are left out, as is the field `hash`, which no method reads.
-/

namespace TinyHttpProxy

/-! ## Bytes, strings, errors -/

/-- A Go `byte`. -/
abbrev Byte := Fin 256

/-- A Go `[]byte`: `none` is nil, `some l` is a non-nil slice with elements `l`. -/
abbrev Bytes := Option (List Byte)

/-- The elements of a slice; nil has none. -/
def Bytes.elems : Bytes → List Byte
  | none => []
  | some l => l

/-- A Go `[32]byte`. -/
abbrev Array32 := { l : List Byte // l.length = 32 }

/-- Error numbers the file-system model produces. -/
inductive Errno
  | ENOENT
  | ENOTDIR
  | EISDIR
  deriving DecidableEq, Repr

/-- A Go `error` value: one made by `errors.New`, or an `*os.PathError`. -/
inductive GoError
  | errorString (s : String)
  | pathError (op : String) (path : String) (errno : Errno)
  deriving DecidableEq, Repr

deriving instance DecidableEq for Except

/-- The conversion `[]byte(data)`: the UTF-8 bytes of the string. -/
def stringBytes (data : String) : List Byte :=
  (data.toList.map (fun ch => (String.utf8EncodeChar ch).map (fun b => b.val))).flatten

/-! ## `encoding/hex` -/

/-- The table `hextable` of `encoding/hex`. -/
def hextable : List Char :=
  ['0', '1', '2', '3', '4', '5', '6', '7', '8', '9', 'a', 'b', 'c', 'd', 'e', 'f']

/-- The two characters `hextable[v>>4]`, `hextable[v&0x0f]` of one byte. -/
def hexByte (v : Byte) : List Char :=
  [hextable.getD (v.val / 16) '0', hextable.getD (v.val % 16) '0']

/-- The function `hex.EncodeToString`. -/
def encodeToString (src : List Byte) : String :=
  String.mk ((src.map hexByte).flatten)

/-- The value of a lowercase hexadecimal digit: its place in `hextable`. -/
def hexDigitValue (ch : Char) : Option Nat :=
  if hextable.indexOf ch < 16 then some (hextable.indexOf ch) else none

/-- Reads a string of lowercase hexadecimal digits back, two digits a byte. -/
def hexDecode : List Char → Option (List Byte)
  | [] => some []
  | [_] => none
  | hi :: lo :: rest =>
    match hexDigitValue hi, hexDigitValue lo, hexDecode rest with
    | some h, some l, some bytes => some (Fin.ofNat (h * 16 + l) :: bytes)
    | _, _, _ => none

/-! ## `calcHash` (cache.go:139-142) -/

/-- The function `calcHash`: `hex.EncodeToString(sha256.Sum256([]byte(data))[:])`. -/
def calcHash (sum256 : List Byte → Array32) (data : String) : String :=
  encodeToString (sum256 (stringBytes data)).val

/-- A stand-in for `sha256.Sum256`, used only to evaluate the definitions at concrete
inputs: 31 zero bytes followed by the sum of the input bytes modulo 256. -/
def sumBytes256 (data : List Byte) : Array32 :=
  ⟨List.replicate 31 0 ++ [data.foldl (fun a b => a + b) 0], by simp⟩

/-! ## The file system -/

/-- A node of the file system: a regular file with its contents, or a directory. -/
inductive Node
  | file (data : List Byte)
  | dir
  deriving DecidableEq, Repr

/-- A resolved path: the names from the root down to the node. -/
abbrev Path := List String

/-- The disk: a finite table from resolved paths to nodes; the first entry of a path
counts. The root is a directory. -/
structure Disk where
  entries : List (Path × Node)
  deriving DecidableEq, Repr

/-- An entry of a directory listing, as far as `cache.go` reads an `os.FileInfo`:
`Name()` and `IsDir()`. -/
structure FileInfo where
  Name : String
  IsDir : Bool
  deriving DecidableEq, Repr

/-- The pieces of a path between the separators `/`. -/
def splitSlash : List Char → List (List Char)
  | [] => [[]]
  | ch :: rest =>
    match splitSlash rest with
    | [] => [[ch]]
    | piece :: pieces => if ch = '/' then [] :: piece :: pieces else (ch :: piece) :: pieces

/-- Path resolution, with the root as working directory: the names between the
separators, empty names and `.` dropped. -/
def resolve (name : String) : Path :=
  ((splitSlash name.toList).map String.mk).filter (fun piece => piece ≠ "" ∧ piece ≠ ".")

/-- The node at a resolved path, if any. -/
def Disk.node (d : Disk) (p : Path) : Option Node :=
  if p = [] then some Node.dir
  else match d.entries.find? (fun e => e.1 = p) with
    | some e => some e.2
    | none => none

/-- The names of the entries directly inside the directory `p`, each once. -/
def Disk.names (d : Disk) (p : Path) : List String :=
  (d.entries.filterMap (fun e => if e.1.dropLast = p then e.1.getLast? else none)).dedup

/-- The call `ioutil.ReadDir(dirname)`: the entries of the directory, or an error when
the name is empty or resolves to no directory. (The order of the entries plays no role
in `cache.go`; the listing is not sorted here.) -/
def readDir (d : Disk) (dirname : String) : Except GoError (List FileInfo) :=
  if dirname = "" then Except.error (GoError.pathError "open" dirname Errno.ENOENT)
  else match d.node (resolve dirname) with
    | none => Except.error (GoError.pathError "open" dirname Errno.ENOENT)
    | some (Node.file _) => Except.error (GoError.pathError "readdirent" dirname Errno.ENOTDIR)
    | some Node.dir =>
      Except.ok ((d.names (resolve dirname)).map (fun n =>
        { Name := n, IsDir := decide (d.node (resolve dirname ++ [n]) = some Node.dir) }))

/-- The call `ioutil.ReadFile(filename)`: the contents of the regular file, or an error.
On success Go returns a non-nil slice, also for an empty file. -/
def readFile (d : Disk) (filename : String) : Except GoError (List Byte) :=
  if filename = "" then Except.error (GoError.pathError "open" filename Errno.ENOENT)
  else match d.node (resolve filename) with
    | none => Except.error (GoError.pathError "open" filename Errno.ENOENT)
    | some Node.dir => Except.error (GoError.pathError "read" filename Errno.EISDIR)
    | some (Node.file data) => Except.ok data

/-- The call `ioutil.WriteFile(filename, data, 0644)`: creates or truncates the regular
file and writes `data`; fails when the name is empty, the parent is no directory, or the
name resolves to a directory. A failed call leaves the disk as it was. -/
def writeFile (d : Disk) (filename : String) (data : Bytes) : Except GoError Disk :=
  if filename = "" then Except.error (GoError.pathError "open" filename Errno.ENOENT)
  else match d.node (resolve filename) with
    | some Node.dir => Except.error (GoError.pathError "open" filename Errno.EISDIR)
    | _ =>
      match d.node (resolve filename).dropLast with
      | none => Except.error (GoError.pathError "open" filename Errno.ENOENT)
      | some (Node.file _) => Except.error (GoError.pathError "open" filename Errno.ENOTDIR)
      | some Node.dir =>
        Except.ok { entries := (resolve filename, Node.file data.elems) ::
                      d.entries.filter (fun e => e.1 ≠ resolve filename) }

/-! ## Mutexes, the process state, and calls that may block -/

/-- What a call does to the world outside the cache's maps, in order. -/
inductive Event
  | lock (addr : Nat)
  | unlock (addr : Nat)
  | readFile (filename : String)
  | writeFile (filename : String)
  deriving DecidableEq, Repr

/-- The state of the process around the cache: the disk, the state of every
`sync.Mutex` by address (`true` is locked), the next address `&sync.Mutex{}` hands out,
and the events so far (oldest first). -/
structure Sys where
  disk : Disk
  locked : Nat → Bool
  next : Nat
  trace : List Event

/-- The struct `Cache` (cache.go:13-21), without the unused field `hash`. A value of
`knownValues` is `none` for an absent key, `some none` for a key mapped to nil (known,
not loaded), `some (some l)` for a key mapped to bytes. -/
structure Cache where
  folder : String
  knownValues : String → Option Bytes
  mutexes : String → Option Nat
  mutex : Nat

/-- The outcome of a call: it returns `val` leaving the cache `c` and the process state
`σ`, or it never returns because it waits for a mutex that is held. -/
inductive Run (α : Type)
  | done (val : α) (c : Cache) (σ : Sys)
  | blocked (c : Cache) (σ : Sys)

/-- The value a call returns, if it returns. -/
def Run.val? {α : Type} : Run α → Option α
  | Run.done v _ _ => some v
  | Run.blocked _ _ => none

/-- The cache a call leaves behind (where it returns or where it hangs). -/
def Run.cache {α : Type} : Run α → Cache
  | Run.done _ c _ => c
  | Run.blocked c _ => c

/-- The process state a call leaves behind (where it returns or where it hangs). -/
def Run.sys {α : Type} : Run α → Sys
  | Run.done _ _ σ => σ
  | Run.blocked _ σ => σ

/-- Whether the call never returns. -/
def Run.isBlocked {α : Type} : Run α → Bool
  | Run.done _ _ _ => false
  | Run.blocked _ _ => true

/-- Map assignment `m[k] = v`. -/
def mapSet {V : Type} (m : String → Option V) (k : String) (v : V) : String → Option V :=
  fun x => if x = k then some v else m x

/-- The call `m.Lock()` on the mutex at `addr`: `none` when the mutex is held (the caller
waits), otherwise the state with the mutex held. -/
def Sys.lock (σ : Sys) (addr : Nat) : Option Sys :=
  if σ.locked addr then none
  else some { σ with locked := fun a => if a = addr then true else σ.locked a,
                     trace := σ.trace ++ [Event.lock addr] }

/-- The call `m.Unlock()` on the mutex at `addr`. -/
def Sys.unlock (σ : Sys) (addr : Nat) : Sys :=
  { σ with locked := fun a => if a = addr then false else σ.locked a,
           trace := σ.trace ++ [Event.unlock addr] }

/-- The expression `&sync.Mutex{}`: a new, unlocked mutex at the next address. -/
def Sys.newMutex (σ : Sys) : Nat × Sys :=
  (σ.next, { σ with locked := fun a => if a = σ.next then false else σ.locked a,
                    next := σ.next + 1 })

/-! ## The cache (cache.go:23-137) -/

/-- The loop of `CreateCache` (cache.go:35-39): every entry that is not a directory gets
`values[info.Name()] = nil`. -/
def scanInfos (values : String → Option Bytes) : List FileInfo → String → Option Bytes
  | [] => values
  | info :: rest =>
    if !info.IsDir then scanInfos (mapSet values info.Name none) rest
    else scanInfos values rest

/-- The function `CreateCache` (cache.go:23-54): the pair `(cache, err)` it returns, and
the process state afterwards. -/
def CreateCache (path : String) (σ : Sys) : (Option Cache × Option GoError) × Sys :=
  match readDir σ.disk path with
  | Except.error err => ((none, some err), σ)
  | Except.ok fileInfos =>
    let values := scanInfos (fun _ => none) fileInfos
    let mutexes : String → Option Nat := fun _ => none
    let (mutex, σ1) := σ.newMutex
    ((some { folder := path, knownValues := values, mutexes := mutexes, mutex := mutex },
      none), σ1)

/-- The method `ensureMutex` (cache.go:124-137): returns the mutex stored for
`hashValue`, creating and storing a new one when there is none, under the table lock
`c.mutex`. -/
def ensureMutex (c : Cache) (σ : Sys) (hashValue : String) : Run Nat :=
  match σ.lock c.mutex with
  | none => Run.blocked c σ
  | some σ1 =>
    match c.mutexes hashValue with
    | some mutex => Run.done mutex c (σ1.unlock c.mutex)
    | none =>
      let (mutex, σ2) := σ1.newMutex
      let c1 := { c with mutexes := mapSet c.mutexes hashValue mutex }
      Run.done mutex c1 (σ2.unlock c1.mutex)

/-- The method `has` (cache.go:56-62). -/
def has (sum256 : List Byte → Array32) (c : Cache) (σ : Sys) (key : String) : Run Bool :=
  let hashValue := calcHash sum256 key
  let ok := (c.knownValues hashValue).isSome
  Run.done ok c σ

/-- The method `get` (cache.go:64-96): the pair `(content, err)` it returns. The
`content` declared by `:=` inside the `if` block (line 84) is a new variable, named
`content1` here; line 95 returns the outer one. -/
def get (sum256 : List Byte → Array32) (c : Cache) (σ : Sys) (key : String) :
    Run (Bytes × Option GoError) :=
  let hashValue := calcHash sum256 key
  match c.knownValues hashValue with
  | none =>
    Run.done (none, some (GoError.errorString
      ("Key '" ++ hashValue ++ "' is not known to cache"))) c σ
  | some content =>
    match ensureMutex c σ hashValue with
    | Run.blocked c1 σ1 => Run.blocked c1 σ1
    | Run.done mutex c1 σ1 =>
      match content with
      | none =>
        match σ1.lock mutex with
        | none => Run.blocked c1 σ1
        | some σ2 =>
          let σ3 := { σ2 with trace := σ2.trace ++ [Event.readFile (c1.folder ++ hashValue)] }
          match readFile σ3.disk (c1.folder ++ hashValue) with
          | Except.error err => Run.done (none, some err) c1 σ3
          | Except.ok content1 =>
            let c2 := { c1 with knownValues := mapSet c1.knownValues hashValue (some content1) }
            Run.done (content, none) c2 (σ3.unlock mutex)
      | some _ => Run.done (content, none) c1 σ1

/-- The method `put` (cache.go:98-120): the `err` it returns. The deferred
`mutex.Unlock()` runs on the way out. -/
def put (sum256 : List Byte → Array32) (c : Cache) (σ : Sys) (key : String)
    (content : Bytes) : Run (Option GoError) :=
  let hashValue := calcHash sum256 key
  match ensureMutex c σ hashValue with
  | Run.blocked c1 σ1 => Run.blocked c1 σ1
  | Run.done mutex c1 σ1 =>
    match σ1.lock mutex with
    | none => Run.blocked c1 σ1
    | some σ2 =>
      let σ3 := { σ2 with trace := σ2.trace ++ [Event.writeFile (c1.folder ++ hashValue)] }
      match writeFile σ3.disk (c1.folder ++ hashValue) content with
      | Except.ok disk1 =>
        let c2 := { c1 with knownValues := mapSet c1.knownValues hashValue content }
        Run.done none c2 ({ σ3 with disk := disk1 }.unlock mutex)
      | Except.error err => Run.done (some err) c1 (σ3.unlock mutex)

/-! ## The example state used to evaluate the definitions

A disk with the directory `/tmp/cache` holding one regular file, named by the digest of
the key `"a"` under `sumBytes256`, with contents `[1, 2]`, and one sub-directory. -/

/-- The digest of the key `"a"` under the stand-in `sumBytes256`. -/
def digestA : String := "0000000000000000000000000000000000000000000000000000000000000061"

/-- The example disk. -/
def exampleDisk : Disk :=
  { entries := [(["tmp"], Node.dir), (["tmp", "cache"], Node.dir),
                (["tmp", "cache", digestA], Node.file [1, 2]),
                (["tmp", "cache", "sub"], Node.dir)] }

/-- The example process state: the example disk, no mutex allocated or held. -/
def exampleSys : Sys :=
  { disk := exampleDisk, locked := fun _ => false, next := 0, trace := [] }

/-- An empty cache on `/tmp/cache/` whose table lock is the mutex at address 0. -/
def emptyCache : Cache :=
  { folder := "/tmp/cache/", knownValues := fun _ => none, mutexes := fun _ => none,
    mutex := 0 }

/-- The process state that goes with `emptyCache`: address 0 is taken. -/
def emptySys : Sys :=
  { disk := exampleDisk, locked := fun _ => false, next := 1, trace := [] }

/-- The cache `CreateCache("/tmp/cache/")` returns on the example disk: the digest of
`"a"` is known and not loaded. -/
def scannedCache : Cache :=
  { folder := "/tmp/cache/", knownValues := mapSet (fun _ => none) digestA none,
    mutexes := fun _ => none, mutex := 0 }

/-- A cache whose folder `/gone/` does not exist on the example disk, with the digest of
`"a"` loaded with `[1, 2]`. -/
def orphanCache : Cache :=
  { folder := "/gone/", knownValues := mapSet (fun _ => none) digestA (some [1, 2]),
    mutexes := fun _ => none, mutex := 0 }

/-- The example disk after the cached file of `"a"` has been removed. -/
def strippedDisk : Disk :=
  { entries := [(["tmp"], Node.dir), (["tmp", "cache"], Node.dir),
                (["tmp", "cache", "sub"], Node.dir)] }

/-- The process state of `emptySys` over the stripped disk. -/
def strippedSys : Sys :=
  { disk := strippedDisk, locked := fun _ => false, next := 1, trace := [] }

/-- The cache `CreateCache("/tmp/cache")` returns on the example disk: the folder has no
trailing separator. -/
def slashlessCache : Cache :=
  { folder := "/tmp/cache", knownValues := mapSet (fun _ => none) digestA none,
    mutexes := fun _ => none, mutex := 0 }

/-- The digest of the key `"b"` under the stand-in `sumBytes256`. -/
def digestB : String := "0000000000000000000000000000000000000000000000000000000000000062"

/-! ## Sequences of calls -/

/-- A call of one of the three methods of the cache. -/
inductive Call
  | has (key : String)
  | get (key : String)
  | put (key : String) (content : Bytes)
  deriving DecidableEq, Repr

/-- What a call gave back: the values it returned, or `hung` when it never returns. -/
inductive Ret
  | has (ok : Bool)
  | get (content : Bytes) (err : Option GoError)
  | put (err : Option GoError)
  | hung
  deriving DecidableEq, Repr

/-- The answer of a `has`. -/
def Ret.ofHas : Run Bool → Ret
  | Run.done ok _ _ => Ret.has ok
  | Run.blocked _ _ => Ret.hung

/-- The answer of a `get`. -/
def Ret.ofGet : Run (Bytes × Option GoError) → Ret
  | Run.done v _ _ => Ret.get v.1 v.2
  | Run.blocked _ _ => Ret.hung

/-- The answer of a `put`. -/
def Ret.ofPut : Run (Option GoError) → Ret
  | Run.done err _ _ => Ret.put err
  | Run.blocked _ _ => Ret.hung

/-- Whether the answer is the error of `get` on a digest the index does not know
(cache.go:71); the error of a failed read is an `*os.PathError`. -/
def Ret.isNotKnown : Ret → Bool
  | Ret.get _ (some (GoError.errorString _)) => true
  | _ => false

/-- One call on the cache: its answer and the cache and process state it leaves. -/
def perform (sum256 : List Byte → Array32) (c : Cache) (σ : Sys) : Call → Ret × Cache × Sys
  | Call.has key =>
    (Ret.ofHas (has sum256 c σ key), (has sum256 c σ key).cache, (has sum256 c σ key).sys)
  | Call.get key =>
    (Ret.ofGet (get sum256 c σ key), (get sum256 c σ key).cache, (get sum256 c σ key).sys)
  | Call.put key content =>
    (Ret.ofPut (put sum256 c σ key content), (put sum256 c σ key content).cache,
      (put sum256 c σ key content).sys)

/-- The calls of a single goroutine, one after the other: the calls made with their
answers, and the cache and process state at the end. A call that never returns is the
last one made. -/
def runCalls (sum256 : List Byte → Array32) :
    Cache → Sys → List Call → List (Call × Ret) × Cache × Sys
  | c, σ, [] => ([], c, σ)
  | c, σ, call :: rest =>
    if (perform sum256 c σ call).1 = Ret.hung then
      ([(call, Ret.hung)], (perform sum256 c σ call).2.1, (perform sum256 c σ call).2.2)
    else
      ((call, (perform sum256 c σ call).1) ::
          (runCalls sum256 (perform sum256 c σ call).2.1 (perform sum256 c σ call).2.2 rest).1,
        (runCalls sum256 (perform sum256 c σ call).2.1 (perform sum256 c σ call).2.2 rest).2)

/-- Whether the index value is loaded: the key is present with non-nil bytes. -/
def isLoaded : Option Bytes → Bool
  | some (some _) => true
  | _ => false

/-- The digest a call is about. -/
def Call.digest (sum256 : List Byte → Array32) : Call → String
  | Call.has key => calcHash sum256 key
  | Call.get key => calcHash sum256 key
  | Call.put key _ => calcHash sum256 key

/-- The loaded state of digest `d` as the history of answered calls tells it: a `put`
of `d` that returned a nil error leaves it loaded exactly when the content was not nil,
a `get` of `d` that returned a nil error leaves it loaded, no other call changes it. -/
def loadedAfter (sum256 : List Byte → Array32) (d : String) : Bool → List (Call × Ret) → Bool
  | b, [] => b
  | b, (Call.put key content, Ret.put none) :: rest =>
    loadedAfter sum256 d (if calcHash sum256 key = d then content.isSome else b) rest
  | b, (Call.get key, Ret.get _ none) :: rest =>
    loadedAfter sum256 d (if calcHash sum256 key = d then true else b) rest
  | b, _ :: rest => loadedAfter sum256 d b rest

/-- Whether a call of the history makes `ensureMutex` run for digest `d`: every `put` of
`d`, and every `get` of `d` but the one answered with the key-not-known error. -/
def usesMutex (sum256 : List Byte → Array32) (d : String) : Call × Ret → Bool
  | (Call.put key _, _) => decide (calcHash sum256 key = d)
  | (Call.get key, r) => decide (calcHash sum256 key = d) && !r.isNotKnown
  | (Call.has _, _) => false

/-- The state of the mutexes as a cache needs it between calls: the table lock is free,
and the mutexes of the lock table were allocated after the table lock and before the
next address. -/
def WellFormed (c : Cache) (σ : Sys) : Prop :=
  σ.locked c.mutex = false ∧ c.mutex < σ.next ∧
    ∀ d m, c.mutexes d = some m → c.mutex < m ∧ m < σ.next

/-- Reads a stretch of events against the table lock at `addr`: while the lock is held
the only event allowed is its `unlock`, and the stretch ends with the lock free. -/
def tableLockBrief (addr : Nat) : Bool → List Event → Bool
  | held, [] => !held
  | held, Event.lock a :: rest =>
    !held && tableLockBrief addr (decide (a = addr)) rest
  | held, Event.unlock a :: rest =>
    (!held || decide (a = addr)) && tableLockBrief addr (held && !decide (a = addr)) rest
  | held, Event.readFile _ :: rest => !held && tableLockBrief addr held rest
  | held, Event.writeFile _ :: rest => !held && tableLockBrief addr held rest

/-- The example disk with one more entry in `/tmp/cache`: a directory named by the digest
of the key `"b"`. -/
def crowdedDisk : Disk :=
  { entries := [(["tmp"], Node.dir), (["tmp", "cache"], Node.dir),
                (["tmp", "cache", digestA], Node.file [1, 2]),
                (["tmp", "cache", "sub"], Node.dir),
                (["tmp", "cache", digestB], Node.dir)] }

/-- The process state before `CreateCache` over the crowded disk. -/
def crowdedSys0 : Sys :=
  { disk := crowdedDisk, locked := fun _ => false, next := 0, trace := [] }

/-- The process state after `CreateCache` over the crowded disk. -/
def crowdedSys : Sys :=
  { disk := crowdedDisk, locked := fun _ => false, next := 1, trace := [] }


/-- The process state once the free mutex at `addr` has been locked. -/
def Sys.held (σ : Sys) (addr : Nat) : Sys :=
  { σ with locked := fun a => if a = addr then true else σ.locked a,
           trace := σ.trace ++ [Event.lock addr] }

/-- The process state with one more event on record. -/
def Sys.noted (σ : Sys) (ev : Event) : Sys :=
  { σ with trace := σ.trace ++ [ev] }

/-- The process state over another disk. -/
def Sys.withDisk (σ : Sys) (disk : Disk) : Sys :=
  { σ with disk := disk }


/-- Whether the mutex at `addr` is held after the events, `held` telling whether it was
held before them. -/
def heldAfter (addr : Nat) : Bool → List Event → Bool
  | held, [] => held
  | held, Event.lock a :: rest => heldAfter addr (held || decide (a = addr)) rest
  | held, Event.unlock a :: rest => heldAfter addr (held && !decide (a = addr)) rest
  | held, Event.readFile _ :: rest => heldAfter addr held rest
  | held, Event.writeFile _ :: rest => heldAfter addr held rest


/-! ## Lemmas on the building blocks -/

theorem readFile_after_writeFile (d d1 : Disk) (filename : String) (data : Bytes)
    (h : writeFile d filename data = Except.ok d1) :
    readFile d1 filename = Except.ok data.elems := by
  unfold writeFile at h
  split_ifs at h with hname
  split at h
  · cases h
  · rename_i hnd
    split at h
    · cases h
    · cases h
    · injection h with h
      subst h
      by_cases hp : resolve filename = []
      · exact (hnd (by simp [Disk.node, hp])).elim
      · simp [readFile, hname, Disk.node, hp]

theorem sys_lock_eq_some (σ σ1 : Sys) (addr : Nat) (h : σ.lock addr = some σ1) :
    σ.locked addr = false ∧
      σ1 = { σ with locked := fun a => if a = addr then true else σ.locked a,
                    trace := σ.trace ++ [Event.lock addr] } := by
  unfold Sys.lock at h
  split_ifs at h with hl
  injection h with h
  exact ⟨by simpa using hl, h.symm⟩

theorem sys_lock_of_free (σ : Sys) (addr : Nat) (h : σ.locked addr = false) :
    σ.lock addr = some { σ with locked := fun a => if a = addr then true else σ.locked a,
                                trace := σ.trace ++ [Event.lock addr] } := by
  simp [Sys.lock, h]

/-- What a returning `ensureMutex` leaves behind. -/
theorem ensureMutex_done (c c1 : Cache) (σ σ1 : Sys) (hashValue : String) (mutex : Nat)
    (h : ensureMutex c σ hashValue = Run.done mutex c1 σ1) :
    c1.folder = c.folder ∧ c1.knownValues = c.knownValues ∧ c1.mutex = c.mutex ∧
      c1.mutexes hashValue = some mutex ∧ σ1.disk = σ.disk ∧ σ1.locked c.mutex = false := by
  unfold ensureMutex at h
  split at h
  · cases h
  · rename_i σ0 hlock
    obtain ⟨-, rfl⟩ := sys_lock_eq_some _ _ _ hlock
    split at h
    · rename_i m hm
      injection h with h1 h2 h3
      subst h1 h2 h3
      simp [Sys.unlock, hm]
    · injection h with h1 h2 h3
      subst h1 h2 h3
      simp [Sys.unlock, Sys.newMutex, mapSet]

/-- With the table lock free and a mutex stored for the digest, `ensureMutex` returns
that mutex and leaves every mutex as it found it. -/
theorem ensureMutex_of_known (c : Cache) (σ : Sys) (hashValue : String) (mutex : Nat)
    (hfree : σ.locked c.mutex = false) (hm : c.mutexes hashValue = some mutex) :
    ∃ σ1, ensureMutex c σ hashValue = Run.done mutex c σ1 ∧ σ1.disk = σ.disk ∧
      (∀ a, σ1.locked a = σ.locked a) := by
  refine ⟨Sys.unlock { σ with locked := fun a => if a = c.mutex then true else σ.locked a,
                               trace := σ.trace ++ [Event.lock c.mutex] } c.mutex, ?_, ?_, ?_⟩
  · simp only [ensureMutex, sys_lock_of_free σ c.mutex hfree, hm]
  · simp [Sys.unlock]
  · intro a
    by_cases ha : a = c.mutex
    · simp [Sys.unlock, ha, hfree]
    · simp [Sys.unlock, ha]

/-- What a returning `put` leaves behind: the mutex of the digest and the table lock are
free, and on success the index maps the digest to the content and the file holds it. -/
theorem put_done (sum256 : List Byte → Array32) (c c1 : Cache) (σ σ1 : Sys) (key : String)
    (content : Bytes) (err : Option GoError)
    (h : put sum256 c σ key content = Run.done err c1 σ1) :
    ∃ mutex, c1.folder = c.folder ∧ c1.mutex = c.mutex ∧
      c1.mutexes (calcHash sum256 key) = some mutex ∧
      σ1.locked mutex = false ∧ σ1.locked c.mutex = false ∧
      (err = none → c1.knownValues = mapSet c.knownValues (calcHash sum256 key) content ∧
        readFile σ1.disk (c.folder ++ calcHash sum256 key) = Except.ok content.elems) ∧
      (err ≠ none → c1.knownValues = c.knownValues ∧ σ1.disk = σ.disk) := by
  unfold put at h
  simp only at h
  split at h
  · cases h
  · rename_i mutex c0 σ0 hens
    obtain ⟨hf, hk, hmx, hms, hd, hl⟩ := ensureMutex_done _ _ _ _ _ _ hens
    split at h
    · cases h
    · rename_i σ2 hlock
      obtain ⟨-, rfl⟩ := sys_lock_eq_some _ _ _ hlock
      have hfree : ∀ (d : Disk) (t : List Event), (Sys.unlock
          { disk := d, locked := fun a => if a = mutex then true else σ0.locked a,
            next := σ0.next, trace := t } mutex).locked c.mutex = false := by
        intro d t
        by_cases hc : c.mutex = mutex
        · simp [Sys.unlock, hc]
        · simp [Sys.unlock, hc, hl]
      split at h
      · rename_i disk1 hw
        injection h with h1 h2 h3
        subst h1 h2 h3
        refine ⟨mutex, hf, hmx, hms, by simp [Sys.unlock], hfree _ _, ?_, by simp⟩
        intro _
        refine ⟨by simp [hk], ?_⟩
        have := readFile_after_writeFile _ _ _ _ hw
        simpa [Sys.unlock, hf] using this
      · rename_i e hw
        injection h with h1 h2 h3
        subst h1 h2 h3
        refine ⟨mutex, hf, hmx, hms, by simp [Sys.unlock], hfree _ _, by simp, ?_⟩
        intro _
        exact ⟨hk, by simp [Sys.unlock, hd]⟩

theorem run_of_val (α : Type) (r : Run α) (v : α) (h : r.val? = some v) :
    r = Run.done v r.cache r.sys := by
  cases r with
  | done v1 c σ =>
    simp only [Run.val?, Option.some.injEq] at h
    subst h
    rfl
  | blocked c σ => simp [Run.val?] at h

/-- On a digest the index maps to `content`, with the table lock free, a mutex stored for
the digest and free, and (when `content` is nil) the file readable, `get` returns
`(content, nil)`. -/
theorem get_of_known (sum256 : List Byte → Array32) (c : Cache) (σ : Sys) (key : String)
    (content : Bytes) (mutex : Nat)
    (hk : c.knownValues (calcHash sum256 key) = some content)
    (hm : c.mutexes (calcHash sum256 key) = some mutex)
    (hfree : σ.locked c.mutex = false) (hmfree : σ.locked mutex = false)
    (hread : content = none →
      ∃ data, readFile σ.disk (c.folder ++ calcHash sum256 key) = Except.ok data) :
    (get sum256 c σ key).val? = some (content, none) := by
  obtain ⟨σ1, hens, hd, hl⟩ := ensureMutex_of_known c σ (calcHash sum256 key) mutex hfree hm
  unfold get
  simp only [hk, hens]
  cases content with
  | some l => rfl
  | none =>
    obtain ⟨data, hdata⟩ := hread rfl
    have hl1 : σ1.locked mutex = false := by rw [hl]; exact hmfree
    simp only [sys_lock_of_free σ1 mutex hl1, hd, hdata]
    rfl

/-! ## The claims -/

/-- C1 (round trip): from any cache and process state, for every key and every content
(nil, empty or not, whatever the index held for the key before), if `put(key, content)`
returns a nil error then the `get(key)` that follows returns `(content, nil)`. -/
theorem put_get_round_trip (sum256 : List Byte → Array32) (c : Cache) (σ : Sys)
    (key : String) (content : Bytes)
    (h : (put sum256 c σ key content).val? = some none) :
    (get sum256 (put sum256 c σ key content).cache (put sum256 c σ key content).sys
      key).val? = some (content, none) := by
  have hrun := run_of_val _ _ _ h
  obtain ⟨mutex, hf, hmx, hms, hl, hlt, hok, -⟩ := put_done _ _ _ _ _ _ _ _ hrun
  obtain ⟨hkv, hrd⟩ := hok rfl
  refine get_of_known sum256 _ _ key content mutex ?_ hms ?_ hl ?_
  · rw [hkv]; simp [mapSet]
  · rw [hmx]; exact hlt
  · intro _
    exact ⟨_, by rw [hf]; exact hrd⟩

/-- C1 at concrete inputs: a non-nil content on a key put before with another content,
and a nil content. -/
theorem put_get_round_trip_witness :
    ((put sumBytes256 (put sumBytes256 emptyCache emptySys "a" (some [7])).cache
        (put sumBytes256 emptyCache emptySys "a" (some [7])).sys "a" (some [8, 9])).val?
        = some none ∧
      (get sumBytes256
        (put sumBytes256 (put sumBytes256 emptyCache emptySys "a" (some [7])).cache
          (put sumBytes256 emptyCache emptySys "a" (some [7])).sys "a" (some [8, 9])).cache
        (put sumBytes256 (put sumBytes256 emptyCache emptySys "a" (some [7])).cache
          (put sumBytes256 emptyCache emptySys "a" (some [7])).sys "a" (some [8, 9])).sys
        "a").val? = some (some [8, 9], none)) ∧
    ((put sumBytes256 emptyCache emptySys "b" none).val? = some none ∧
      (get sumBytes256 (put sumBytes256 emptyCache emptySys "b" none).cache
        (put sumBytes256 emptyCache emptySys "b" none).sys "b").val? = some (none, none)) :=
  ⟨⟨by decide, put_get_round_trip sumBytes256 _ _ "a" (some [8, 9]) (by decide)⟩,
   ⟨by decide, put_get_round_trip sumBytes256 _ _ "b" none (by decide)⟩⟩

/-- On a digest the index maps to nil (known, not loaded), a `get` that returns a nil
error returns nil bytes, whatever the file holds: line 95 returns the outer `content`. -/
theorem get_unloaded_returns_nil (sum256 : List Byte → Array32) (c : Cache) (σ : Sys)
    (key : String) (v : Bytes)
    (hk : c.knownValues (calcHash sum256 key) = some none)
    (h : (get sum256 c σ key).val? = some (v, none)) : v = none := by
  unfold get at h
  simp only [hk] at h
  split at h
  · simp [Run.val?] at h
  · split at h
    · simp [Run.val?] at h
    · split at h
      · simp [Run.val?] at h
      · simp only [Run.val?, Option.some.injEq, Prod.mk.injEq] at h
        exact h.1.symm

/-- C2 at a failing input: the directory `/tmp/cache/` holds a regular file named
`calcHash("a")` with contents `[1, 2]`; on the cache `CreateCache` returns, `has("a")` is
true, but the first `get("a")` returns nil bytes with a nil error, not `[1, 2]`; only
the second `get("a")` returns `[1, 2]`. -/
theorem first_get_after_createCache_returns_nil :
    calcHash sumBytes256 "a" = digestA ∧
    readFile exampleDisk ("/tmp/cache/" ++ calcHash sumBytes256 "a") = Except.ok [1, 2] ∧
    readDir exampleDisk "/tmp/cache/" =
      Except.ok [{ Name := digestA, IsDir := false }, { Name := "sub", IsDir := true }] ∧
    CreateCache "/tmp/cache/" exampleSys = ((some scannedCache, none), emptySys) ∧
    (has sumBytes256 scannedCache emptySys "a").val? = some true ∧
    (get sumBytes256 scannedCache emptySys "a").val? = some (none, none) ∧
    (get sumBytes256 (get sumBytes256 scannedCache emptySys "a").cache
      (get sumBytes256 scannedCache emptySys "a").sys "a").val? = some (some [1, 2], none) :=
  ⟨by decide, by decide, by decide,
   by
    have hdir : readDir exampleDisk "/tmp/cache/" =
        Except.ok [{ Name := digestA, IsDir := false }, { Name := "sub", IsDir := true }] := by
      decide
    simp [CreateCache, hdir, Sys.newMutex, scanInfos, scannedCache, emptySys, exampleSys],
   by decide, by decide, by decide⟩

/-- C3 (failed write non-poisoning): if `put(key, content)` returns an error, the index
is the one before the call; a digest that was loaded with `c1` is still returned as `c1`
by the `get(key)` that follows, and a digest that was unknown is still unknown to `has`. -/
theorem put_failure_keeps_index (sum256 : List Byte → Array32) (c : Cache) (σ : Sys)
    (key : String) (content : Bytes) (err : GoError)
    (h : (put sum256 c σ key content).val? = some (some err)) :
    (put sum256 c σ key content).cache.knownValues = c.knownValues ∧
    (∀ c1 : List Byte, c.knownValues (calcHash sum256 key) = some (some c1) →
      (get sum256 (put sum256 c σ key content).cache (put sum256 c σ key content).sys
        key).val? = some (some c1, none)) ∧
    (c.knownValues (calcHash sum256 key) = none →
      (has sum256 (put sum256 c σ key content).cache (put sum256 c σ key content).sys
        key).val? = some false) := by
  have hrun := run_of_val _ _ _ h
  obtain ⟨mutex, hf, hmx, hms, hl, hlt, -, hfail⟩ := put_done _ _ _ _ _ _ _ _ hrun
  obtain ⟨hkv, -⟩ := hfail (by simp)
  refine ⟨hkv, ?_, ?_⟩
  · intro c1 hc1
    refine get_of_known sum256 _ _ key (some c1) mutex ?_ hms ?_ hl ?_
    · rw [hkv]; exact hc1
    · rw [hmx]; exact hlt
    · intro hn; cases hn
  · intro hnone
    simp [has, Run.val?, hkv, hnone]

/-- C3 at concrete inputs: the write fails because the folder is gone; the loaded digest
of `"a"` keeps `[1, 2]`, the unknown digest of `"b"` stays unknown. -/
theorem put_failure_keeps_index_witness :
    ((put sumBytes256 orphanCache emptySys "a" (some [9])).val? =
        some (some (GoError.pathError "open" ("/gone/" ++ digestA) Errno.ENOENT)) ∧
      (get sumBytes256 (put sumBytes256 orphanCache emptySys "a" (some [9])).cache
        (put sumBytes256 orphanCache emptySys "a" (some [9])).sys "a").val?
        = some (some [1, 2], none)) ∧
    (has sumBytes256 (put sumBytes256 orphanCache emptySys "b" (some [9])).cache
        (put sumBytes256 orphanCache emptySys "b" (some [9])).sys "b").val? = some false :=
  ⟨⟨by decide,
    (put_failure_keeps_index sumBytes256 orphanCache emptySys "a" (some [9])
      (GoError.pathError "open" ("/gone/" ++ digestA) Errno.ENOENT)
      (by decide)).2.1 [1, 2] (by decide)⟩,
   (put_failure_keeps_index sumBytes256 orphanCache emptySys "b" (some [9])
      (GoError.pathError "open"
        ("/gone/" ++ "0000000000000000000000000000000000000000000000000000000000000062")
        Errno.ENOENT)
      (by decide)).2.2 (by decide)⟩

/-- C4 (unknown-key rejection): when the digest of the key is not in the index, `get`
returns nil bytes and the error "Key ... is not known to cache", `has` returns false,
and both leave the cache (index and lock table) and the process state (mutexes, disk,
events) exactly as they were. -/
theorem get_unknown_key (sum256 : List Byte → Array32) (c : Cache) (σ : Sys)
    (key : String) (h : c.knownValues (calcHash sum256 key) = none) :
    get sum256 c σ key =
      Run.done (none, some (GoError.errorString
        ("Key '" ++ calcHash sum256 key ++ "' is not known to cache"))) c σ ∧
    has sum256 c σ key = Run.done false c σ := by
  constructor
  · simp only [get, h]
  · simp only [has, h, Option.isSome]

/-- C4 at a concrete input: the key `"b"` on the cache scanned from the example disk. -/
theorem get_unknown_key_witness :
    scannedCache.knownValues (calcHash sumBytes256 "b") = none ∧
    get sumBytes256 scannedCache emptySys "b" =
      Run.done (none, some (GoError.errorString
        ("Key '" ++ calcHash sumBytes256 "b" ++ "' is not known to cache")))
        scannedCache emptySys ∧
    has sumBytes256 scannedCache emptySys "b" = Run.done false scannedCache emptySys :=
  ⟨by decide, get_unknown_key sumBytes256 scannedCache emptySys "b" (by decide)⟩

/-- C5 at a failing input: the digest of `"a"` is known and not loaded and its file is
missing, so `get("a")` returns the read error; the digest is still known and not loaded,
but the mutex of the digest (address 1) is still held when `get` has returned (line 87
returns before the `Unlock` of line 92). With the file back on the disk and readable, the
next `get("a")` never returns: it waits for that mutex. -/
theorem failed_read_leaves_mutex_locked :
    scannedCache.knownValues (calcHash sumBytes256 "a") = some none ∧
    (get sumBytes256 scannedCache strippedSys "a").val? =
      some (none, some (GoError.pathError "open" ("/tmp/cache/" ++ digestA) Errno.ENOENT)) ∧
    (get sumBytes256 scannedCache strippedSys "a").cache.knownValues digestA = some none ∧
    (get sumBytes256 scannedCache strippedSys "a").cache.mutexes digestA = some 1 ∧
    (get sumBytes256 scannedCache strippedSys "a").sys.locked 1 = true ∧
    (get sumBytes256 scannedCache strippedSys "a").sys.trace =
      [Event.lock 0, Event.unlock 0, Event.lock 1,
        Event.readFile ("/tmp/cache/" ++ digestA)] ∧
    readFile exampleDisk ("/tmp/cache/" ++ digestA) = Except.ok [1, 2] ∧
    (get sumBytes256 (get sumBytes256 scannedCache strippedSys "a").cache
      { (get sumBytes256 scannedCache strippedSys "a").sys with disk := exampleDisk }
      "a").isBlocked = true ∧
    (get sumBytes256 (get sumBytes256 scannedCache strippedSys "a").cache
      { (get sumBytes256 scannedCache strippedSys "a").sys with disk := exampleDisk }
      "a").val? = none := by
  refine ⟨?_, ?_, ?_, ?_, ?_, ?_, ?_, ?_, ?_⟩ <;> decide

/-- C6 (existence after write): if `put(key, content)` returns a nil error then `has(key)`
returns true afterwards, whatever the index held for the digest before. -/
theorem put_then_has (sum256 : List Byte → Array32) (c : Cache) (σ : Sys)
    (key : String) (content : Bytes)
    (h : (put sum256 c σ key content).val? = some none) :
    (has sum256 (put sum256 c σ key content).cache (put sum256 c σ key content).sys
      key).val? = some true := by
  have hrun := run_of_val _ _ _ h
  obtain ⟨mutex, -, -, -, -, -, hok, -⟩ := put_done _ _ _ _ _ _ _ _ hrun
  obtain ⟨hkv, -⟩ := hok rfl
  simp [has, Run.val?, hkv, mapSet]

/-- C6 at concrete inputs: a digest unknown before (key `"b"`, nil content) and one known
before (key `"a"`). -/
theorem put_then_has_witness :
    (scannedCache.knownValues (calcHash sumBytes256 "b") = none ∧
      (put sumBytes256 scannedCache emptySys "b" none).val? = some none ∧
      (has sumBytes256 (put sumBytes256 scannedCache emptySys "b" none).cache
        (put sumBytes256 scannedCache emptySys "b" none).sys "b").val? = some true) ∧
    (scannedCache.knownValues (calcHash sumBytes256 "a") = some none ∧
      (put sumBytes256 scannedCache emptySys "a" (some [3])).val? = some none ∧
      (has sumBytes256 (put sumBytes256 scannedCache emptySys "a" (some [3])).cache
        (put sumBytes256 scannedCache emptySys "a" (some [3])).sys "a").val? = some true) :=
  ⟨⟨by decide, by decide, put_then_has sumBytes256 scannedCache emptySys "b" none (by decide)⟩,
   ⟨by decide, by decide,
    put_then_has sumBytes256 scannedCache emptySys "a" (some [3]) (by decide)⟩⟩

/-- C7 (`has` is a pure lookup): `has(key)` returns, and what it returns is true exactly
when `calcHash(key)` is a key of the index, be its value nil or bytes; the cache (index
and lock table) and the process state (disk, mutexes, events) are left as they were. -/
theorem has_pure_lookup (sum256 : List Byte → Array32) (c : Cache) (σ : Sys)
    (key : String) :
    ∃ ok : Bool, has sum256 c σ key = Run.done ok c σ ∧
      (ok = true ↔ ∃ v : Bytes, c.knownValues (calcHash sum256 key) = some v) ∧
      (c.knownValues (calcHash sum256 key) = some none → ok = true) ∧
      (∀ l : List Byte, c.knownValues (calcHash sum256 key) = some (some l) → ok = true) := by
  refine ⟨(c.knownValues (calcHash sum256 key)).isSome, rfl, ?_, ?_, ?_⟩
  · exact Option.isSome_iff_exists
  · intro h; simp [h]
  · intro l h; simp [h]

/-- The index the loop of `CreateCache` builds: nil for every name of an entry that is
not a directory, the value before for every other name. -/
theorem scanInfos_apply (fileInfos : List FileInfo) (values : String → Option Bytes)
    (name : String) :
    scanInfos values fileInfos name =
      if fileInfos.any (fun info => decide (info.Name = name) && !info.IsDir) then some none
      else values name := by
  induction fileInfos generalizing values with
  | nil => simp [scanInfos]
  | cons info rest ih =>
    unfold scanInfos
    by_cases hd : info.IsDir = true
    · simp [hd, ih]
    · simp only [Bool.not_eq_true] at hd
      by_cases hn : info.Name = name
      · simp [hd, ih, hn, mapSet]
      · have hn1 : ¬ name = info.Name := fun h => hn h.symm
        simp [hd, ih, hn, hn1, mapSet]

/-- The listing `readDir` returns holds a non-directory entry named `name` exactly when
the node `name` inside the directory is a regular file. -/
theorem readDir_file_entry (d : Disk) (dirname : String) (fileInfos : List FileInfo)
    (name : String) (h : readDir d dirname = Except.ok fileInfos) :
    (∃ info ∈ fileInfos, info.Name = name ∧ info.IsDir = false) ↔
      ∃ data, d.node (resolve dirname ++ [name]) = some (Node.file data) := by
  unfold readDir at h
  split_ifs at h
  split at h
  · cases h
  · cases h
  · injection h with h
    subst h
    have hne : resolve dirname ++ [name] ≠ [] := by simp
    constructor
    · rintro ⟨info, hmem, hname, hdir⟩
      simp only [List.mem_map] at hmem
      obtain ⟨n, hn, rfl⟩ := hmem
      simp only at hname hdir
      subst hname
      simp only [Disk.names, List.mem_dedup, List.mem_filterMap] at hn
      obtain ⟨e, he, hlast⟩ := hn
      split_ifs at hlast with hdrop
      have hpath : e.1 = resolve dirname ++ [n] := by
        rw [← hdrop]
        exact (List.dropLast_append_getLast? n hlast).symm
      have hfind : ∃ e1, d.entries.find? (fun e => e.1 = resolve dirname ++ [n]) = some e1 := by
        cases hf : d.entries.find? (fun e => e.1 = resolve dirname ++ [n]) with
        | some e1 => exact ⟨e1, rfl⟩
        | none =>
          rw [List.find?_eq_none] at hf
          exact absurd (by simpa using hpath) (hf e he)
      obtain ⟨e1, he1⟩ := hfind
      have hnode : d.node (resolve dirname ++ [n]) = some e1.2 := by
        simp [Disk.node, he1]
      rw [hnode] at hdir ⊢
      cases h2 : e1.2 with
      | file data => exact ⟨data, rfl⟩
      | dir => simp [h2] at hdir
    · rintro ⟨data, hdata⟩
      refine ⟨{ Name := name, IsDir := false }, ?_, rfl, rfl⟩
      simp only [List.mem_map]
      refine ⟨name, ?_, ?_⟩
      · simp only [Disk.names, List.mem_dedup, List.mem_filterMap]
        simp only [Disk.node, hne, if_false] at hdata
        split at hdata
        · rename_i e he
          have hmem := List.mem_of_find?_eq_some he
          have hp := List.find?_some he
          simp only [decide_eq_true_eq] at hp
          refine ⟨e, hmem, ?_⟩
          simp [hp]
        · cases hdata
      · simp [hdata]

/-- C8 (postcondition of `CreateCache`): when listing the directory fails, `CreateCache`
returns `(nil, err)` with the error of the listing and changes nothing; otherwise it
returns `(cache, nil)` where the folder is `path`, the index maps every name of a
non-directory entry of the listing to nil and has no other key (so its keys are exactly
the names of the regular files inside the directory), and the lock table is empty; the
disk is not changed. -/
theorem createCache_post (path : String) (σ : Sys) :
    match readDir σ.disk path with
    | Except.error err => CreateCache path σ = ((none, some err), σ)
    | Except.ok fileInfos =>
      ∃ c σ1, CreateCache path σ = ((some c, none), σ1) ∧ c.folder = path ∧
        (∀ name, (∃ info ∈ fileInfos, info.Name = name ∧ info.IsDir = false) →
          c.knownValues name = some none) ∧
        (∀ name, (¬ ∃ info ∈ fileInfos, info.Name = name ∧ info.IsDir = false) →
          c.knownValues name = none) ∧
        (∀ name, c.knownValues name ≠ none ↔
          ∃ data, σ.disk.node (resolve path ++ [name]) = some (Node.file data)) ∧
        (∀ hashValue, c.mutexes hashValue = none) ∧ σ1.disk = σ.disk := by
  cases hdir : readDir σ.disk path with
  | error err => simp [CreateCache, hdir]
  | ok fileInfos =>
    have hany : ∀ name, (fileInfos.any (fun info => decide (info.Name = name) && !info.IsDir))
        = true ↔ ∃ info ∈ fileInfos, info.Name = name ∧ info.IsDir = false := by
      intro name
      simp [List.any_eq_true]
    refine ⟨{ folder := path, knownValues := scanInfos (fun _ => none) fileInfos,
              mutexes := fun _ => none, mutex := σ.newMutex.1 }, σ.newMutex.2,
      by simp only [CreateCache, hdir], rfl, ?_, ?_, ?_, fun _ => rfl, rfl⟩
    · intro name hex
      simp only [scanInfos_apply]
      rw [if_pos ((hany name).2 hex)]
    · intro name hex
      simp only [scanInfos_apply]
      rw [if_neg (fun h => hex ((hany name).1 h))]
    · intro name
      rw [← readDir_file_entry _ _ _ name hdir, ← hany name]
      simp only [scanInfos_apply]
      split_ifs with h <;> simp [h]

/-- C9 at a failing input: the directory `/tmp/cache` given without a trailing separator.
`CreateCache("/tmp/cache")` lists the directory; `put("b", [5])` returns a nil error but
writes to `"/tmp/cache" + calcHash("b")`, an entry of `/tmp` beside the directory, and
the directory gets no entry named `calcHash("b")`; a second `CreateCache("/tmp/cache")`
yields a cache on which `has("b")` is false. With the path `/tmp/cache/` the same calls
put the file inside the directory and `has("b")` is true on the second cache. -/
theorem put_without_separator_misses_directory :
    calcHash sumBytes256 "b" = digestB ∧
    CreateCache "/tmp/cache" exampleSys = ((some slashlessCache, none), emptySys) ∧
    (put sumBytes256 slashlessCache emptySys "b" (some [5])).val? = some none ∧
    (put sumBytes256 slashlessCache emptySys "b" (some [5])).sys.disk.node
      ["tmp", "cache" ++ digestB] = some (Node.file [5]) ∧
    (put sumBytes256 slashlessCache emptySys "b" (some [5])).sys.disk.node
      ["tmp", "cache", digestB] = none ∧
    (CreateCache "/tmp/cache"
      (put sumBytes256 slashlessCache emptySys "b" (some [5])).sys).1.2 = none ∧
    (CreateCache "/tmp/cache"
      (put sumBytes256 slashlessCache emptySys "b" (some [5])).sys).1.1.map
        (fun c2 => (has sumBytes256 c2 emptySys "b").val?) = some (some false) ∧
    (put sumBytes256 scannedCache emptySys "b" (some [5])).val? = some none ∧
    (put sumBytes256 scannedCache emptySys "b" (some [5])).sys.disk.node
      ["tmp", "cache", digestB] = some (Node.file [5]) ∧
    (CreateCache "/tmp/cache/"
      (put sumBytes256 scannedCache emptySys "b" (some [5])).sys).1.1.map
        (fun c2 => (has sumBytes256 c2 emptySys "b").val?) = some (some true) := by
  refine ⟨by decide, ?_, by decide, by decide, by decide, by decide, by decide, by decide,
    by decide, by decide⟩
  have hdir : readDir exampleDisk "/tmp/cache" =
      Except.ok [{ Name := digestA, IsDir := false }, { Name := "sub", IsDir := true }] := by
    decide
  simp [CreateCache, hdir, Sys.newMutex, scanInfos, slashlessCache, emptySys, exampleSys]

/-! ### The digest -/

theorem hexDigitValue_hextable (n : Nat) (h : n < 16) :
    hexDigitValue (hextable.getD n '0') = some n := by
  interval_cases n <;> decide

theorem hextable_getD_mem (n : Nat) (h : n < 16) : hextable.getD n '0' ∈ hextable := by
  interval_cases n <;> decide

theorem hexDecode_encode (src : List Byte) :
    hexDecode ((src.map hexByte).flatten) = some src := by
  induction src with
  | nil => rfl
  | cons v rest ih =>
    have h1 : v.val / 16 < 16 := by omega
    have h2 : v.val % 16 < 16 := by omega
    have hv : Fin.ofNat (v.val / 16 * 16 + v.val % 16) = v := by
      apply Fin.ext
      simp only [Fin.ofNat, Fin.val_mk]
      omega
    have hd : hexDecode (hextable.getD (v.val / 16) '0' :: hextable.getD (v.val % 16) '0' ::
        (rest.map hexByte).flatten) = some (v :: rest) := by
      simp only [hexDecode, hexDigitValue_hextable _ h1, hexDigitValue_hextable _ h2, ih, hv]
    simpa [hexByte] using hd

theorem length_flatten_hexByte (src : List Byte) :
    ((src.map hexByte).flatten).length = 2 * src.length := by
  induction src with
  | nil => rfl
  | cons v rest ih =>
    simp only [List.map_cons, List.flatten_cons, List.length_append, ih, hexByte,
      List.length_cons, List.length_nil]
    omega

theorem mem_flatten_hexByte (src : List Byte) (ch : Char)
    (h : ch ∈ (src.map hexByte).flatten) : ch ∈ hextable := by
  simp only [List.mem_flatten, List.mem_map] at h
  obtain ⟨l, ⟨v, -, rfl⟩, hch⟩ := h
  simp only [hexByte, List.mem_cons, List.mem_singleton, List.not_mem_nil, or_false] at hch
  rcases hch with rfl | rfl
  · exact hextable_getD_mem _ (by omega)
  · exact hextable_getD_mem _ (by omega)

/-- C10 (digest format): for every key, `calcHash(key)` is the hexadecimal rendering of
`Sum256` applied to the bytes of the key, hence a function of the key alone: reading the
digits back gives the 32 bytes of the sum; the digest has exactly 64 characters and each
is one of `0`-`9`, `a`-`f`. -/
theorem calcHash_format (sum256 : List Byte → Array32) (key : String) :
    calcHash sum256 key = encodeToString (sum256 (stringBytes key)).val ∧
    hexDecode (calcHash sum256 key).toList = some (sum256 (stringBytes key)).val ∧
    (calcHash sum256 key).length = 64 ∧
    ∀ ch ∈ (calcHash sum256 key).toList,
      ch ∈ ['0', '1', '2', '3', '4', '5', '6', '7', '8', '9', 'a', 'b', 'c', 'd', 'e', 'f'] := by
  refine ⟨rfl, ?_, ?_, ?_⟩
  · exact hexDecode_encode _
  · show ((((sum256 (stringBytes key)).val).map hexByte).flatten).length = 64
    rw [length_flatten_hexByte, (sum256 (stringBytes key)).property]
  · intro ch hch
    exact mem_flatten_hexByte _ ch hch

/-- The general form of the defect behind C5: whenever `get` returns the error of a
failed read on a known, not loaded digest, the digest is still known and not loaded, the
mutex of the digest is still held, and the next `get` of the key never returns, whatever
the disk holds by then. -/
theorem get_read_error_holds_mutex (sum256 : List Byte → Array32) (c : Cache) (σ : Sys)
    (key : String) (v : Bytes) (err : GoError)
    (hk : c.knownValues (calcHash sum256 key) = some none)
    (h : (get sum256 c σ key).val? = some (v, some err)) :
    (get sum256 c σ key).cache.knownValues (calcHash sum256 key) = some none ∧
    (∃ mutex, (get sum256 c σ key).cache.mutexes (calcHash sum256 key) = some mutex ∧
      (get sum256 c σ key).sys.locked mutex = true) ∧
    ∀ disk1 : Disk, (get sum256 (get sum256 c σ key).cache
      { (get sum256 c σ key).sys with disk := disk1 } key).isBlocked = true := by
  have hrun := run_of_val _ _ _ h
  generalize (get sum256 c σ key).cache = c1 at hrun ⊢
  generalize (get sum256 c σ key).sys = σ1 at hrun ⊢
  unfold get at hrun
  simp only [hk] at hrun
  split at hrun
  · cases hrun
  · rename_i mutex c0 σ0 hens
    obtain ⟨-, hkv, -, hms, -, -⟩ := ensureMutex_done _ _ _ _ _ _ hens
    split at hrun
    · cases hrun
    · rename_i σ2 hlock
      obtain ⟨-, rfl⟩ := sys_lock_eq_some _ _ _ hlock
      split at hrun
      · injection hrun with h1 h2 h3
        subst h2 h3
        have hkn : c0.knownValues (calcHash sum256 key) = some none := by rw [hkv]; exact hk
        refine ⟨hkn, ⟨mutex, hms, by simp⟩, ?_⟩
        intro disk1
        unfold get
        simp only [hkn]
        split
        · rfl
        · rename_i m2 c2 σ3 hens2
          cases hlt : (if c0.mutex = mutex then true else σ0.locked c0.mutex) with
          | true =>
            simp [ensureMutex, Sys.lock, hlt] at hens2
          | false =>
            obtain ⟨σ4, hens3, -, hl4⟩ := ensureMutex_of_known c0
              { disk := disk1, locked := fun a => if a = mutex then true else σ0.locked a,
                next := σ0.next,
                trace := σ0.trace ++ [Event.lock mutex] ++
                  [Event.readFile (c0.folder ++ calcHash sum256 key)] }
              (calcHash sum256 key) mutex (by simpa using hlt) hms
            rw [hens3] at hens2
            injection hens2 with e1 e2 e3
            subst e1 e2 e3
            have : σ4.locked mutex = true := by rw [hl4]; simp
            simp [Sys.lock, this, Run.isBlocked]
      · cases hrun

/-! ## The shape of every call -/

theorem sys_lock_eq (σ : Sys) (addr : Nat) :
    σ.lock addr = if σ.locked addr = true then none else some (σ.held addr) := rfl

@[simp] theorem held_locked (σ : Sys) (addr a : Nat) :
    (σ.held addr).locked a = if a = addr then true else σ.locked a := rfl

@[simp] theorem held_disk (σ : Sys) (addr : Nat) : (σ.held addr).disk = σ.disk := rfl

@[simp] theorem held_next (σ : Sys) (addr : Nat) : (σ.held addr).next = σ.next := rfl

@[simp] theorem held_trace (σ : Sys) (addr : Nat) :
    (σ.held addr).trace = σ.trace ++ [Event.lock addr] := rfl

@[simp] theorem unlock_locked (σ : Sys) (addr a : Nat) :
    (σ.unlock addr).locked a = if a = addr then false else σ.locked a := rfl

@[simp] theorem unlock_disk (σ : Sys) (addr : Nat) : (σ.unlock addr).disk = σ.disk := rfl

@[simp] theorem unlock_next (σ : Sys) (addr : Nat) : (σ.unlock addr).next = σ.next := rfl

@[simp] theorem unlock_trace (σ : Sys) (addr : Nat) :
    (σ.unlock addr).trace = σ.trace ++ [Event.unlock addr] := rfl

@[simp] theorem noted_locked (σ : Sys) (ev : Event) : (σ.noted ev).locked = σ.locked := rfl

@[simp] theorem noted_disk (σ : Sys) (ev : Event) : (σ.noted ev).disk = σ.disk := rfl

@[simp] theorem noted_next (σ : Sys) (ev : Event) : (σ.noted ev).next = σ.next := rfl

@[simp] theorem noted_trace (σ : Sys) (ev : Event) :
    (σ.noted ev).trace = σ.trace ++ [ev] := rfl

@[simp] theorem withDisk_locked (σ : Sys) (d : Disk) : (σ.withDisk d).locked = σ.locked := rfl

@[simp] theorem withDisk_disk (σ : Sys) (d : Disk) : (σ.withDisk d).disk = d := rfl

@[simp] theorem withDisk_next (σ : Sys) (d : Disk) : (σ.withDisk d).next = σ.next := rfl

@[simp] theorem withDisk_trace (σ : Sys) (d : Disk) : (σ.withDisk d).trace = σ.trace := rfl

/-- With the table lock held, `ensureMutex` waits. -/
theorem ensureMutex_held (c : Cache) (σ : Sys) (hashValue : String)
    (ht : σ.locked c.mutex = true) : ensureMutex c σ hashValue = Run.blocked c σ := by
  simp [ensureMutex, sys_lock_eq, ht]

/-- With the table lock free, `ensureMutex` returns; what it leaves behind. -/
theorem ensureMutex_free (c : Cache) (σ : Sys) (hashValue : String)
    (ht : σ.locked c.mutex = false) :
    ∃ m c1 σ1, ensureMutex c σ hashValue = Run.done m c1 σ1 ∧
      c1.folder = c.folder ∧ c1.knownValues = c.knownValues ∧ c1.mutex = c.mutex ∧
      c1.mutexes hashValue = some m ∧ (∀ d, d ≠ hashValue → c1.mutexes d = c.mutexes d) ∧
      (∀ m0, c.mutexes hashValue = some m0 →
        m = m0 ∧ c1 = c ∧ σ1.next = σ.next ∧ ∀ a, σ1.locked a = σ.locked a) ∧
      (c.mutexes hashValue = none →
        m = σ.next ∧ σ1.next = σ.next + 1 ∧
          ∀ a, σ1.locked a = if a = σ.next then false else σ.locked a) ∧
      σ1.disk = σ.disk ∧
      σ1.trace = σ.trace ++ [Event.lock c.mutex, Event.unlock c.mutex] := by
  cases hm : c.mutexes hashValue with
  | some m0 =>
    refine ⟨m0, c, (σ.held c.mutex).unlock c.mutex, ?_, rfl, rfl, rfl, hm, fun _ _ => rfl, ?_,
      ?_, rfl, by simp⟩
    · simp [ensureMutex, sys_lock_eq, ht, hm]
    · intro m1 h1
      cases h1
      refine ⟨rfl, rfl, rfl, ?_⟩
      intro a
      by_cases ha : a = c.mutex
      · simp [ha, ht]
      · simp [ha]
    · intro h; cases h
  | none =>
    refine ⟨σ.next, { c with mutexes := mapSet c.mutexes hashValue σ.next },
      ((σ.held c.mutex).newMutex.2).unlock c.mutex, ?_, rfl, rfl, rfl, by simp [mapSet],
      ?_, ?_, ?_, rfl, by simp [Sys.newMutex]⟩
    · simp [ensureMutex, sys_lock_eq, ht, hm, Sys.newMutex]
    · intro d hd
      simp [mapSet, hd]
    · intro m0 h; cases h
    · intro _
      refine ⟨rfl, rfl, ?_⟩
      intro a
      by_cases ha : a = c.mutex
      · subst ha
        simp [Sys.newMutex, ht]
      · simp [Sys.newMutex, ha]

/-- Case analysis of `get`: a property holds of the call when it holds of each of the six
ways the call can go. -/
theorem get_cases (sum256 : List Byte → Array32) (c : Cache) (σ : Sys) (key : String)
    (P : Run (Bytes × Option GoError) → Prop)
    (unknown : c.knownValues (calcHash sum256 key) = none →
      P (Run.done (none, some (GoError.errorString
        ("Key '" ++ calcHash sum256 key ++ "' is not known to cache"))) c σ))
    (table : ∀ content, c.knownValues (calcHash sum256 key) = some content →
      σ.locked c.mutex = true → P (Run.blocked c σ))
    (hit : ∀ l m c1 σ1, c.knownValues (calcHash sum256 key) = some (some l) →
      σ.locked c.mutex = false →
      ensureMutex c σ (calcHash sum256 key) = Run.done m c1 σ1 →
      P (Run.done (some l, none) c1 σ1))
    (wait : ∀ m c1 σ1, c.knownValues (calcHash sum256 key) = some none →
      σ.locked c.mutex = false →
      ensureMutex c σ (calcHash sum256 key) = Run.done m c1 σ1 →
      σ1.locked m = true → P (Run.blocked c1 σ1))
    (fail : ∀ m c1 σ1 err, c.knownValues (calcHash sum256 key) = some none →
      σ.locked c.mutex = false →
      ensureMutex c σ (calcHash sum256 key) = Run.done m c1 σ1 →
      σ1.locked m = false →
      readFile σ1.disk (c1.folder ++ calcHash sum256 key) = Except.error err →
      P (Run.done (none, some err) c1
        ((σ1.held m).noted (Event.readFile (c1.folder ++ calcHash sum256 key)))))
    (load : ∀ m c1 σ1 data, c.knownValues (calcHash sum256 key) = some none →
      σ.locked c.mutex = false →
      ensureMutex c σ (calcHash sum256 key) = Run.done m c1 σ1 →
      σ1.locked m = false →
      readFile σ1.disk (c1.folder ++ calcHash sum256 key) = Except.ok data →
      P (Run.done (none, none)
        { c1 with knownValues := mapSet c1.knownValues (calcHash sum256 key) (some data) }
        (((σ1.held m).noted (Event.readFile (c1.folder ++ calcHash sum256 key))).unlock m))) :
    P (get sum256 c σ key) := by
  cases hk : c.knownValues (calcHash sum256 key) with
  | none =>
    have h := unknown hk
    simpa only [get, hk] using h
  | some content =>
    by_cases ht : σ.locked c.mutex = true
    · have h := table content hk ht
      simpa only [get, hk, ensureMutex_held c σ _ ht] using h
    · simp only [Bool.not_eq_true] at ht
      obtain ⟨m, c1, σ1, hens, -⟩ := ensureMutex_free c σ (calcHash sum256 key) ht
      cases content with
      | some l =>
        have h := hit l m c1 σ1 hk ht hens
        simpa only [get, hk, hens] using h
      | none =>
        by_cases hml : σ1.locked m = true
        · have h := wait m c1 σ1 hk ht hens hml
          simpa only [get, hk, hens, sys_lock_eq, hml, if_true] using h
        · simp only [Bool.not_eq_true] at hml
          cases hr : readFile σ1.disk (c1.folder ++ calcHash sum256 key) with
          | error err =>
            have h := fail m c1 σ1 err hk ht hens hml hr
            have hr1 : readFile (σ1.held m).disk (c1.folder ++ calcHash sum256 key)
                = Except.error err := hr
            simp only [get, hk, hens, sys_lock_eq, hml, Bool.false_eq_true, if_false, hr1]
            exact h
          | ok data =>
            have h := load m c1 σ1 data hk ht hens hml hr
            have hr1 : readFile (σ1.held m).disk (c1.folder ++ calcHash sum256 key)
                = Except.ok data := hr
            simp only [get, hk, hens, sys_lock_eq, hml, Bool.false_eq_true, if_false, hr1]
            exact h

/-- Case analysis of `put`: a property holds of the call when it holds of each of the
four ways the call can go. -/
theorem put_cases (sum256 : List Byte → Array32) (c : Cache) (σ : Sys) (key : String)
    (content : Bytes) (P : Run (Option GoError) → Prop)
    (table : σ.locked c.mutex = true → P (Run.blocked c σ))
    (wait : ∀ m c1 σ1, σ.locked c.mutex = false →
      ensureMutex c σ (calcHash sum256 key) = Run.done m c1 σ1 →
      σ1.locked m = true → P (Run.blocked c1 σ1))
    (fail : ∀ m c1 σ1 err, σ.locked c.mutex = false →
      ensureMutex c σ (calcHash sum256 key) = Run.done m c1 σ1 →
      σ1.locked m = false →
      writeFile σ1.disk (c1.folder ++ calcHash sum256 key) content = Except.error err →
      P (Run.done (some err) c1
        (((σ1.held m).noted (Event.writeFile (c1.folder ++ calcHash sum256 key))).unlock m)))
    (store : ∀ m c1 σ1 disk1, σ.locked c.mutex = false →
      ensureMutex c σ (calcHash sum256 key) = Run.done m c1 σ1 →
      σ1.locked m = false →
      writeFile σ1.disk (c1.folder ++ calcHash sum256 key) content = Except.ok disk1 →
      P (Run.done none
        { c1 with knownValues := mapSet c1.knownValues (calcHash sum256 key) content }
        ((((σ1.held m).noted (Event.writeFile (c1.folder ++ calcHash sum256 key))).withDisk
          disk1).unlock m))) :
    P (put sum256 c σ key content) := by
  by_cases ht : σ.locked c.mutex = true
  · have h := table ht
    simpa only [put, ensureMutex_held c σ _ ht] using h
  · simp only [Bool.not_eq_true] at ht
    obtain ⟨m, c1, σ1, hens, -⟩ := ensureMutex_free c σ (calcHash sum256 key) ht
    by_cases hml : σ1.locked m = true
    · have h := wait m c1 σ1 ht hens hml
      simpa only [put, hens, sys_lock_eq, hml, if_true] using h
    · simp only [Bool.not_eq_true] at hml
      cases hw : writeFile σ1.disk (c1.folder ++ calcHash sum256 key) content with
      | error err =>
        have h := fail m c1 σ1 err ht hens hml hw
        have hw1 : writeFile (σ1.held m).disk (c1.folder ++ calcHash sum256 key) content
            = Except.error err := hw
        simp only [put, hens, sys_lock_eq, hml, Bool.false_eq_true, if_false, hw1]
        exact h
      | ok disk1 =>
        have h := store m c1 σ1 disk1 ht hens hml hw
        have hw1 : writeFile (σ1.held m).disk (c1.folder ++ calcHash sum256 key) content
            = Except.ok disk1 := hw
        simp only [put, hens, sys_lock_eq, hml, Bool.false_eq_true, if_false, hw1]
        exact h


/-- Everything a returning `ensureMutex` leaves behind. -/
theorem ensureMutex_post (c c1 : Cache) (σ σ1 : Sys) (hashValue : String) (m : Nat)
    (hens : ensureMutex c σ hashValue = Run.done m c1 σ1) :
    σ.locked c.mutex = false ∧
      c1.folder = c.folder ∧ c1.knownValues = c.knownValues ∧ c1.mutex = c.mutex ∧
      c1.mutexes hashValue = some m ∧ (∀ d, d ≠ hashValue → c1.mutexes d = c.mutexes d) ∧
      (∀ m0, c.mutexes hashValue = some m0 →
        m = m0 ∧ c1 = c ∧ σ1.next = σ.next ∧ ∀ a, σ1.locked a = σ.locked a) ∧
      (c.mutexes hashValue = none →
        m = σ.next ∧ σ1.next = σ.next + 1 ∧
          ∀ a, σ1.locked a = if a = σ.next then false else σ.locked a) ∧
      σ1.disk = σ.disk ∧
      σ1.trace = σ.trace ++ [Event.lock c.mutex, Event.unlock c.mutex] := by
  by_cases ht : σ.locked c.mutex = true
  · rw [ensureMutex_held c σ hashValue ht] at hens
    cases hens
  · simp only [Bool.not_eq_true] at ht
    obtain ⟨m2, c2, σ2, hens2, hrest⟩ := ensureMutex_free c σ hashValue ht
    rw [hens] at hens2
    injection hens2 with e1 e2 e3
    subst e1 e2 e3
    exact ⟨ht, hrest⟩

/-- A returning `ensureMutex` keeps the mutexes well formed, and the mutex it returns is
not the table lock. -/
theorem ensureMutex_wellFormed (c c1 : Cache) (σ σ1 : Sys) (hashValue : String) (m : Nat)
    (hwf : WellFormed c σ) (hens : ensureMutex c σ hashValue = Run.done m c1 σ1) :
    WellFormed c1 σ1 ∧ c.mutex < m ∧ m < σ1.next := by
  obtain ⟨ht, -, -, hmx, hmh, hother, hsome, hnone, -, -⟩ :=
    ensureMutex_post c c1 σ σ1 hashValue m hens
  obtain ⟨-, hlt, hall⟩ := hwf
  cases hm : c.mutexes hashValue with
  | some m0 =>
    obtain ⟨rfl, rfl, hnext, hlocked⟩ := hsome m0 hm
    refine ⟨⟨by rw [hlocked]; exact ht, by rw [hnext]; exact hlt, ?_⟩, (hall _ _ hm).1,
      by rw [hnext]; exact (hall _ _ hm).2⟩
    intro d m1 hd
    rw [hnext]
    exact hall d m1 hd
  | none =>
    obtain ⟨rfl, hnext, hlocked⟩ := hnone hm
    refine ⟨⟨?_, by rw [hmx, hnext]; omega, ?_⟩, hlt, by rw [hnext]; omega⟩
    · rw [hmx, hlocked]
      simp [ht]
    · intro d m1 hd
      rw [hmx, hnext]
      by_cases hdh : d = hashValue
      · subst hdh
        rw [hmh] at hd
        cases hd
        omega
      · rw [hother d hdh] at hd
        have := hall d m1 hd
        omega

/-- The index after a `get`: known digests stay known, unknown ones unknown; the loaded
state changes as `loadedAfter` tells; the entries of other digests are untouched. -/
theorem get_index (sum256 : List Byte → Array32) (c : Cache) (σ : Sys) (key d : String) :
    ((get sum256 c σ key).cache.knownValues d ≠ none ↔ c.knownValues d ≠ none) ∧
    isLoaded ((get sum256 c σ key).cache.knownValues d) =
      loadedAfter sum256 d (isLoaded (c.knownValues d))
        [(Call.get key, Ret.ofGet (get sum256 c σ key))] ∧
    (d ≠ calcHash sum256 key →
      (get sum256 c σ key).cache.knownValues d = c.knownValues d) := by
  refine get_cases sum256 c σ key (fun r =>
    (r.cache.knownValues d ≠ none ↔ c.knownValues d ≠ none) ∧
    isLoaded (r.cache.knownValues d) =
      loadedAfter sum256 d (isLoaded (c.knownValues d)) [(Call.get key, Ret.ofGet r)] ∧
    (d ≠ calcHash sum256 key → r.cache.knownValues d = c.knownValues d)) ?_ ?_ ?_ ?_ ?_ ?_
  · intro _
    simp [Run.cache, Ret.ofGet, loadedAfter]
  · intro _ _ _
    simp [Run.cache, Ret.ofGet, loadedAfter]
  · intro l m c1 σ1 hk _ hens
    obtain ⟨-, -, hkv, -⟩ := ensureMutex_post _ _ _ _ _ _ hens
    by_cases hd : calcHash sum256 key = d
    · subst hd
      simp [Run.cache, Ret.ofGet, loadedAfter, hkv, hk, isLoaded]
    · simp [Run.cache, Ret.ofGet, loadedAfter, hkv, hd]
  · intro m c1 σ1 _ _ hens _
    obtain ⟨-, -, hkv, -⟩ := ensureMutex_post _ _ _ _ _ _ hens
    simp [Run.cache, Ret.ofGet, loadedAfter, hkv]
  · intro m c1 σ1 err _ _ hens _ _
    obtain ⟨-, -, hkv, -⟩ := ensureMutex_post _ _ _ _ _ _ hens
    simp [Run.cache, Ret.ofGet, loadedAfter, hkv]
  · intro m c1 σ1 data hk _ hens _ _
    obtain ⟨-, -, hkv, -⟩ := ensureMutex_post _ _ _ _ _ _ hens
    by_cases hd : calcHash sum256 key = d
    · subst hd
      simp [Run.cache, Ret.ofGet, loadedAfter, hkv, hk, isLoaded, mapSet]
    · have hd1 : ¬ d = calcHash sum256 key := fun h => hd h.symm
      simp [Run.cache, Ret.ofGet, loadedAfter, hkv, hd, hd1, mapSet]

/-- The index after a `put`: the digest is known afterwards exactly when it was known
before or the call returned a nil error; the loaded state changes as `loadedAfter` tells;
the entries of other digests are untouched. -/
theorem put_index (sum256 : List Byte → Array32) (c : Cache) (σ : Sys) (key : String)
    (content : Bytes) (d : String) :
    ((put sum256 c σ key content).cache.knownValues d ≠ none ↔
      (c.knownValues d ≠ none ∨
        (Ret.ofPut (put sum256 c σ key content) = Ret.put none ∧ calcHash sum256 key = d))) ∧
    isLoaded ((put sum256 c σ key content).cache.knownValues d) =
      loadedAfter sum256 d (isLoaded (c.knownValues d))
        [(Call.put key content, Ret.ofPut (put sum256 c σ key content))] ∧
    (d ≠ calcHash sum256 key →
      (put sum256 c σ key content).cache.knownValues d = c.knownValues d) := by
  refine put_cases sum256 c σ key content (fun r =>
    (r.cache.knownValues d ≠ none ↔
      (c.knownValues d ≠ none ∨ (Ret.ofPut r = Ret.put none ∧ calcHash sum256 key = d))) ∧
    isLoaded (r.cache.knownValues d) =
      loadedAfter sum256 d (isLoaded (c.knownValues d)) [(Call.put key content, Ret.ofPut r)] ∧
    (d ≠ calcHash sum256 key → r.cache.knownValues d = c.knownValues d)) ?_ ?_ ?_ ?_
  · intro _
    simp [Run.cache, Ret.ofPut, loadedAfter]
  · intro m c1 σ1 _ hens _
    obtain ⟨-, -, hkv, -⟩ := ensureMutex_post _ _ _ _ _ _ hens
    simp [Run.cache, Ret.ofPut, loadedAfter, hkv]
  · intro m c1 σ1 err _ hens _ _
    obtain ⟨-, -, hkv, -⟩ := ensureMutex_post _ _ _ _ _ _ hens
    simp [Run.cache, Ret.ofPut, loadedAfter, hkv]
  · intro m c1 σ1 disk1 _ hens _ _
    obtain ⟨-, -, hkv, -⟩ := ensureMutex_post _ _ _ _ _ _ hens
    by_cases hd : calcHash sum256 key = d
    · subst hd
      cases content <;> simp [Run.cache, Ret.ofPut, loadedAfter, hkv, isLoaded, mapSet]
    · have hd1 : ¬ d = calcHash sum256 key := fun h => hd h.symm
      simp [Run.cache, Ret.ofPut, loadedAfter, hkv, hd, hd1, mapSet]


/-- The cache fields a `get` never changes, the lock-table entries it keeps, and the
disk, which it never writes. -/
theorem get_frame (sum256 : List Byte → Array32) (c : Cache) (σ : Sys) (key : String) :
    (get sum256 c σ key).cache.folder = c.folder ∧
    (get sum256 c σ key).cache.mutex = c.mutex ∧
    (get sum256 c σ key).sys.disk = σ.disk ∧
    (∀ d m, c.mutexes d = some m → (get sum256 c σ key).cache.mutexes d = some m) ∧
    (∀ d, d ≠ calcHash sum256 key →
      (get sum256 c σ key).cache.mutexes d = c.mutexes d) := by
  have hens_facts : ∀ m c1 σ1, ensureMutex c σ (calcHash sum256 key) = Run.done m c1 σ1 →
      c1.folder = c.folder ∧ c1.mutex = c.mutex ∧ σ1.disk = σ.disk ∧
      (∀ d m0, c.mutexes d = some m0 → c1.mutexes d = some m0) ∧
      (∀ d, d ≠ calcHash sum256 key → c1.mutexes d = c.mutexes d) := by
    intro m c1 σ1 hens
    obtain ⟨-, hf, -, hmx, hmh, hother, hsome, -, hdisk, -⟩ := ensureMutex_post _ _ _ _ _ _ hens
    refine ⟨hf, hmx, hdisk, ?_, hother⟩
    intro d m0 hd
    by_cases hdh : d = calcHash sum256 key
    · subst hdh
      obtain ⟨-, rfl, -⟩ := hsome m0 hd
      exact hd
    · rw [hother d hdh]; exact hd
  refine get_cases sum256 c σ key (fun r =>
    r.cache.folder = c.folder ∧ r.cache.mutex = c.mutex ∧ r.sys.disk = σ.disk ∧
    (∀ d m, c.mutexes d = some m → r.cache.mutexes d = some m) ∧
    (∀ d, d ≠ calcHash sum256 key → r.cache.mutexes d = c.mutexes d)) ?_ ?_ ?_ ?_ ?_ ?_
  · intro _
    exact ⟨rfl, rfl, rfl, fun _ _ h => h, fun _ _ => rfl⟩
  · intro _ _ _
    exact ⟨rfl, rfl, rfl, fun _ _ h => h, fun _ _ => rfl⟩
  · intro l m c1 σ1 _ _ hens
    exact hens_facts m c1 σ1 hens
  · intro m c1 σ1 _ _ hens _
    exact hens_facts m c1 σ1 hens
  · intro m c1 σ1 err _ _ hens _ _
    obtain ⟨h1, h2, h3, h4, h5⟩ := hens_facts m c1 σ1 hens
    exact ⟨h1, h2, by simpa [Run.sys] using h3, h4, h5⟩
  · intro m c1 σ1 data _ _ hens _ _
    obtain ⟨h1, h2, h3, h4, h5⟩ := hens_facts m c1 σ1 hens
    exact ⟨h1, h2, by simpa [Run.sys] using h3, h4, h5⟩

/-- The cache fields a `put` never changes and the lock-table entries it keeps. -/
theorem put_frame (sum256 : List Byte → Array32) (c : Cache) (σ : Sys) (key : String)
    (content : Bytes) :
    (put sum256 c σ key content).cache.folder = c.folder ∧
    (put sum256 c σ key content).cache.mutex = c.mutex ∧
    (∀ d m, c.mutexes d = some m → (put sum256 c σ key content).cache.mutexes d = some m) ∧
    (∀ d, d ≠ calcHash sum256 key →
      (put sum256 c σ key content).cache.mutexes d = c.mutexes d) := by
  have hens_facts : ∀ m c1 σ1, ensureMutex c σ (calcHash sum256 key) = Run.done m c1 σ1 →
      c1.folder = c.folder ∧ c1.mutex = c.mutex ∧
      (∀ d m0, c.mutexes d = some m0 → c1.mutexes d = some m0) ∧
      (∀ d, d ≠ calcHash sum256 key → c1.mutexes d = c.mutexes d) := by
    intro m c1 σ1 hens
    obtain ⟨-, hf, -, hmx, hmh, hother, hsome, -, -, -⟩ := ensureMutex_post _ _ _ _ _ _ hens
    refine ⟨hf, hmx, ?_, hother⟩
    intro d m0 hd
    by_cases hdh : d = calcHash sum256 key
    · subst hdh
      obtain ⟨-, rfl, -⟩ := hsome m0 hd
      exact hd
    · rw [hother d hdh]; exact hd
  refine put_cases sum256 c σ key content (fun r =>
    r.cache.folder = c.folder ∧ r.cache.mutex = c.mutex ∧
    (∀ d m, c.mutexes d = some m → r.cache.mutexes d = some m) ∧
    (∀ d, d ≠ calcHash sum256 key → r.cache.mutexes d = c.mutexes d)) ?_ ?_ ?_ ?_
  · intro _
    exact ⟨rfl, rfl, fun _ _ h => h, fun _ _ => rfl⟩
  · intro m c1 σ1 _ hens _
    exact hens_facts m c1 σ1 hens
  · intro m c1 σ1 err _ hens _ _
    exact hens_facts m c1 σ1 hens
  · intro m c1 σ1 disk1 _ hens _ _
    exact hens_facts m c1 σ1 hens

/-- From well-formed mutexes a `get` leaves well-formed mutexes; the lock table has an
entry for a digest afterwards exactly when it had one before or the call ran
`ensureMutex` for it; and the events of the call hold the table lock only briefly. -/
theorem get_locks (sum256 : List Byte → Array32) (c : Cache) (σ : Sys) (key d : String)
    (hwf : WellFormed c σ) :
    WellFormed (get sum256 c σ key).cache (get sum256 c σ key).sys ∧
    ((get sum256 c σ key).cache.mutexes d ≠ none ↔
      (c.mutexes d ≠ none ∨
        usesMutex sum256 d (Call.get key, Ret.ofGet (get sum256 c σ key)) = true)) ∧
    ∃ events, (get sum256 c σ key).sys.trace = σ.trace ++ events ∧
      tableLockBrief c.mutex false events = true := by
  have hens_facts : ∀ m c1 σ1, ensureMutex c σ (calcHash sum256 key) = Run.done m c1 σ1 →
      WellFormed c1 σ1 ∧ c.mutex < m ∧ c1.mutex = c.mutex ∧
      (c1.mutexes d ≠ none ↔ (c.mutexes d ≠ none ∨ calcHash sum256 key = d)) ∧
      σ1.trace = σ.trace ++ [Event.lock c.mutex, Event.unlock c.mutex] := by
    intro m c1 σ1 hens
    obtain ⟨hwf1, hlt, -⟩ := ensureMutex_wellFormed _ _ _ _ _ _ hwf hens
    obtain ⟨-, -, -, hmx, hmh, hother, -, -, -, htr⟩ := ensureMutex_post _ _ _ _ _ _ hens
    refine ⟨hwf1, hlt, hmx, ?_, htr⟩
    by_cases hd : d = calcHash sum256 key
    · subst hd
      simp [hmh]
    · have hd1 : ¬ calcHash sum256 key = d := fun h => hd h.symm
      rw [hother d hd]
      simp [hd1]
  refine get_cases sum256 c σ key (fun r =>
    WellFormed r.cache r.sys ∧
    (r.cache.mutexes d ≠ none ↔
      (c.mutexes d ≠ none ∨ usesMutex sum256 d (Call.get key, Ret.ofGet r) = true)) ∧
    ∃ events, r.sys.trace = σ.trace ++ events ∧ tableLockBrief c.mutex false events = true)
    ?_ ?_ ?_ ?_ ?_ ?_
  · intro _
    refine ⟨hwf, by simp [Run.cache, Ret.ofGet, usesMutex, Ret.isNotKnown], [], ?_, rfl⟩
    simp [Run.sys]
  · intro _ _ ht
    rw [hwf.1] at ht
    cases ht
  · intro l m c1 σ1 _ _ hens
    obtain ⟨hwf1, -, -, hiff, htr⟩ := hens_facts m c1 σ1 hens
    refine ⟨hwf1, ?_, _, htr, by simp [tableLockBrief]⟩
    simpa [Run.cache, Ret.ofGet, usesMutex, Ret.isNotKnown] using hiff
  · intro m c1 σ1 _ _ hens _
    obtain ⟨hwf1, -, -, hiff, htr⟩ := hens_facts m c1 σ1 hens
    refine ⟨hwf1, ?_, _, htr, by simp [tableLockBrief]⟩
    simpa [Run.cache, Ret.ofGet, usesMutex, Ret.isNotKnown] using hiff
  · intro m c1 σ1 err _ _ hens _ hread
    obtain ⟨hwf1, hlt, hmx, hiff, htr⟩ := hens_facts m c1 σ1 hens
    have hne : ¬ c1.mutex = m := by omega
    have hne1 : ¬ m = c.mutex := by omega
    have herr : ∃ op p e, err = GoError.pathError op p e := by
      unfold readFile at hread
      split_ifs at hread
      · cases hread; exact ⟨_, _, _, rfl⟩
      · split at hread
        · cases hread; exact ⟨_, _, _, rfl⟩
        · cases hread; exact ⟨_, _, _, rfl⟩
        · cases hread
    obtain ⟨op, p, e, rfl⟩ := herr
    refine ⟨⟨?_, hwf1.2.1, hwf1.2.2⟩, ?_,
      [Event.lock c.mutex, Event.unlock c.mutex, Event.lock m,
        Event.readFile (c1.folder ++ calcHash sum256 key)], ?_, ?_⟩
    · simp [Run.sys, Run.cache, hne, hwf1.1]
    · simpa [Run.cache, Ret.ofGet, usesMutex, Ret.isNotKnown] using hiff
    · simp [Run.sys, htr]
    · simp [tableLockBrief, hne1]
  · intro m c1 σ1 data _ _ hens _ _
    obtain ⟨hwf1, hlt, hmx, hiff, htr⟩ := hens_facts m c1 σ1 hens
    have hne : ¬ c1.mutex = m := by omega
    have hne1 : ¬ m = c.mutex := by omega
    refine ⟨⟨?_, hwf1.2.1, hwf1.2.2⟩, ?_,
      [Event.lock c.mutex, Event.unlock c.mutex, Event.lock m,
        Event.readFile (c1.folder ++ calcHash sum256 key), Event.unlock m], ?_, ?_⟩
    · simp [Run.sys, Run.cache, hne, hwf1.1]
    · simpa [Run.cache, Ret.ofGet, usesMutex, Ret.isNotKnown] using hiff
    · simp [Run.sys, htr]
    · simp [tableLockBrief, hne1]

/-- From well-formed mutexes a `put` leaves well-formed mutexes; the lock table has an
entry for a digest afterwards exactly when it had one before or the call was for that
digest; and the events of the call hold the table lock only briefly. -/
theorem put_locks (sum256 : List Byte → Array32) (c : Cache) (σ : Sys) (key : String)
    (content : Bytes) (d : String) (hwf : WellFormed c σ) :
    WellFormed (put sum256 c σ key content).cache (put sum256 c σ key content).sys ∧
    ((put sum256 c σ key content).cache.mutexes d ≠ none ↔
      (c.mutexes d ≠ none ∨ calcHash sum256 key = d)) ∧
    ∃ events, (put sum256 c σ key content).sys.trace = σ.trace ++ events ∧
      tableLockBrief c.mutex false events = true := by
  have hens_facts : ∀ m c1 σ1, ensureMutex c σ (calcHash sum256 key) = Run.done m c1 σ1 →
      WellFormed c1 σ1 ∧ c.mutex < m ∧ c1.mutex = c.mutex ∧
      (c1.mutexes d ≠ none ↔ (c.mutexes d ≠ none ∨ calcHash sum256 key = d)) ∧
      σ1.trace = σ.trace ++ [Event.lock c.mutex, Event.unlock c.mutex] := by
    intro m c1 σ1 hens
    obtain ⟨hwf1, hlt, -⟩ := ensureMutex_wellFormed _ _ _ _ _ _ hwf hens
    obtain ⟨-, -, -, hmx, hmh, hother, -, -, -, htr⟩ := ensureMutex_post _ _ _ _ _ _ hens
    refine ⟨hwf1, hlt, hmx, ?_, htr⟩
    by_cases hd : d = calcHash sum256 key
    · subst hd
      simp [hmh]
    · have hd1 : ¬ calcHash sum256 key = d := fun h => hd h.symm
      rw [hother d hd]
      simp [hd1]
  refine put_cases sum256 c σ key content (fun r =>
    WellFormed r.cache r.sys ∧
    (r.cache.mutexes d ≠ none ↔ (c.mutexes d ≠ none ∨ calcHash sum256 key = d)) ∧
    ∃ events, r.sys.trace = σ.trace ++ events ∧ tableLockBrief c.mutex false events = true)
    ?_ ?_ ?_ ?_
  · intro ht
    rw [hwf.1] at ht
    cases ht
  · intro m c1 σ1 _ hens _
    obtain ⟨hwf1, -, -, hiff, htr⟩ := hens_facts m c1 σ1 hens
    exact ⟨hwf1, hiff, _, htr, by simp [tableLockBrief]⟩
  · intro m c1 σ1 err _ hens _ _
    obtain ⟨hwf1, hlt, hmx, hiff, htr⟩ := hens_facts m c1 σ1 hens
    have hne : ¬ c1.mutex = m := by omega
    have hne1 : ¬ m = c.mutex := by omega
    refine ⟨⟨?_, hwf1.2.1, hwf1.2.2⟩, hiff,
      [Event.lock c.mutex, Event.unlock c.mutex, Event.lock m,
        Event.writeFile (c1.folder ++ calcHash sum256 key), Event.unlock m], ?_, ?_⟩
    · simp [Run.sys, Run.cache, hne, hwf1.1]
    · simp [Run.sys, htr]
    · simp [tableLockBrief, hne1]
  · intro m c1 σ1 disk1 _ hens _ _
    obtain ⟨hwf1, hlt, hmx, hiff, htr⟩ := hens_facts m c1 σ1 hens
    have hne : ¬ c1.mutex = m := by omega
    have hne1 : ¬ m = c.mutex := by omega
    refine ⟨⟨?_, hwf1.2.1, hwf1.2.2⟩, hiff,
      [Event.lock c.mutex, Event.unlock c.mutex, Event.lock m,
        Event.writeFile (c1.folder ++ calcHash sum256 key), Event.unlock m], ?_, ?_⟩
    · simp [Run.sys, Run.cache, hne, hwf1.1]
    · simp [Run.sys, htr]
    · simp [tableLockBrief, hne1]


/-! ## Sequences of calls: what the history tells about the state -/

theorem loadedAfter_cons (sum256 : List Byte → Array32) (d : String) (b : Bool)
    (e : Call × Ret) (rest : List (Call × Ret)) :
    loadedAfter sum256 d b (e :: rest) =
      loadedAfter sum256 d (loadedAfter sum256 d b [e]) rest := by
  obtain ⟨call, r⟩ := e
  cases call <;> cases r <;> try rfl
  · rename_i key content err
    cases err <;> rfl
  · rename_i key content err
    cases err <;> rfl

theorem tableLockBrief_append (addr : Nat) (first second : List Event) (held : Bool)
    (h1 : tableLockBrief addr held first = true)
    (h2 : tableLockBrief addr false second = true) :
    tableLockBrief addr held (first ++ second) = true := by
  induction first generalizing held with
  | nil =>
    simp only [tableLockBrief, Bool.not_eq_true'] at h1
    subst h1
    simpa using h2
  | cons ev rest ih =>
    cases ev with
    | lock a =>
      simp only [tableLockBrief, Bool.and_eq_true, List.cons_append] at h1 ⊢
      exact ⟨h1.1, ih _ h1.2⟩
    | unlock a =>
      simp only [tableLockBrief, Bool.and_eq_true, List.cons_append] at h1 ⊢
      exact ⟨h1.1, ih _ h1.2⟩
    | readFile p =>
      simp only [tableLockBrief, Bool.and_eq_true, List.cons_append] at h1 ⊢
      exact ⟨h1.1, ih _ h1.2⟩
    | writeFile p =>
      simp only [tableLockBrief, Bool.and_eq_true, List.cons_append] at h1 ⊢
      exact ⟨h1.1, ih _ h1.2⟩

/-- One call and the index. -/
theorem perform_index (sum256 : List Byte → Array32) (c : Cache) (σ : Sys) (call : Call)
    (d : String) :
    ((perform sum256 c σ call).2.1.knownValues d ≠ none ↔
      (c.knownValues d ≠ none ∨ ∃ key content, call = Call.put key content ∧
        (perform sum256 c σ call).1 = Ret.put none ∧ calcHash sum256 key = d)) ∧
    isLoaded ((perform sum256 c σ call).2.1.knownValues d) =
      loadedAfter sum256 d (isLoaded (c.knownValues d))
        [(call, (perform sum256 c σ call).1)] := by
  cases call with
  | has key => simp [perform, has, Run.cache, Ret.ofHas, loadedAfter]
  | get key =>
    obtain ⟨h1, h2, -⟩ := get_index sum256 c σ key d
    exact ⟨by simpa [perform] using h1, by simpa [perform] using h2⟩
  | put key content =>
    obtain ⟨h1, h2, -⟩ := put_index sum256 c σ key content d
    exact ⟨by simpa [perform] using h1, by simpa [perform] using h2⟩

/-- One call and the mutexes. -/
theorem perform_locks (sum256 : List Byte → Array32) (c : Cache) (σ : Sys) (call : Call)
    (d : String) (hwf : WellFormed c σ) :
    WellFormed (perform sum256 c σ call).2.1 (perform sum256 c σ call).2.2 ∧
    (perform sum256 c σ call).2.1.mutex = c.mutex ∧
    ((perform sum256 c σ call).2.1.mutexes d ≠ none ↔
      (c.mutexes d ≠ none ∨
        usesMutex sum256 d (call, (perform sum256 c σ call).1) = true)) ∧
    ∃ events, (perform sum256 c σ call).2.2.trace = σ.trace ++ events ∧
      tableLockBrief c.mutex false events = true := by
  cases call with
  | has key =>
    refine ⟨hwf, rfl, by simp [perform, has, Run.cache, usesMutex], [], ?_, rfl⟩
    simp [perform, has, Run.sys]
  | get key =>
    obtain ⟨h1, h2, h3⟩ := get_locks sum256 c σ key d hwf
    exact ⟨h1, (get_frame sum256 c σ key).2.1, h2, h3⟩
  | put key content =>
    obtain ⟨h1, h2, h3⟩ := put_locks sum256 c σ key content d hwf
    refine ⟨h1, (put_frame sum256 c σ key content).2.1, ?_, h3⟩
    simpa [perform, usesMutex] using h2

/-- One call never removes or replaces an entry of the lock table. -/
theorem perform_keeps_mutex (sum256 : List Byte → Array32) (c : Cache) (σ : Sys)
    (call : Call) (d : String) (m : Nat) (h : c.mutexes d = some m) :
    (perform sum256 c σ call).2.1.mutexes d = some m := by
  cases call with
  | has key => exact h
  | get key => exact (get_frame sum256 c σ key).2.2.2.1 d m h
  | put key content => exact (put_frame sum256 c σ key content).2.2.1 d m h

/-- The index after a sequence of calls, read off the history. -/
theorem runCalls_index (sum256 : List Byte → Array32) (calls : List Call) (c : Cache)
    (σ : Sys) (d : String) :
    ((runCalls sum256 c σ calls).2.1.knownValues d ≠ none ↔
      (c.knownValues d ≠ none ∨ ∃ key content,
        (Call.put key content, Ret.put none) ∈ (runCalls sum256 c σ calls).1 ∧
          calcHash sum256 key = d)) ∧
    isLoaded ((runCalls sum256 c σ calls).2.1.knownValues d) =
      loadedAfter sum256 d (isLoaded (c.knownValues d)) (runCalls sum256 c σ calls).1 := by
  induction calls generalizing c σ with
  | nil => simp [runCalls, loadedAfter]
  | cons call rest ih =>
    obtain ⟨hk, hl⟩ := perform_index sum256 c σ call d
    by_cases hh : (perform sum256 c σ call).1 = Ret.hung
    · simp only [runCalls, hh, if_true]
      rw [hh] at hk hl
      refine ⟨?_, hl⟩
      rw [hk]
      simp
    · obtain ⟨ihk, ihl⟩ := ih (perform sum256 c σ call).2.1 (perform sum256 c σ call).2.2
      simp only [runCalls, hh, if_false]
      refine ⟨?_, ?_⟩
      · rw [ihk, hk]
        constructor
        · rintro ((h | ⟨key, content, rfl, hr, hd⟩) | ⟨key, content, hmem, hd⟩)
          · exact Or.inl h
          · exact Or.inr ⟨key, content, by rw [hr]; exact List.mem_cons_self _ _, hd⟩
          · exact Or.inr ⟨key, content, List.mem_cons_of_mem _ hmem, hd⟩
        · rintro (h | ⟨key, content, hmem, hd⟩)
          · exact Or.inl (Or.inl h)
          · rcases List.mem_cons.1 hmem with heq | hmem
            · injection heq with h1 h2
              exact Or.inl (Or.inr ⟨key, content, h1.symm, h2.symm, hd⟩)
            · exact Or.inr ⟨key, content, hmem, hd⟩
      · rw [ihl, hl, ← loadedAfter_cons]

/-- The mutexes after a sequence of calls from well-formed mutexes. -/
theorem runCalls_locks (sum256 : List Byte → Array32) (calls : List Call) (c : Cache)
    (σ : Sys) (d : String) (hwf : WellFormed c σ) :
    WellFormed (runCalls sum256 c σ calls).2.1 (runCalls sum256 c σ calls).2.2 ∧
    (runCalls sum256 c σ calls).2.1.mutex = c.mutex ∧
    ((runCalls sum256 c σ calls).2.1.mutexes d ≠ none ↔
      (c.mutexes d ≠ none ∨
        ∃ e ∈ (runCalls sum256 c σ calls).1, usesMutex sum256 d e = true)) ∧
    ∃ events, (runCalls sum256 c σ calls).2.2.trace = σ.trace ++ events ∧
      tableLockBrief c.mutex false events = true := by
  induction calls generalizing c σ with
  | nil =>
    refine ⟨hwf, rfl, by simp [runCalls], [], by simp [runCalls], rfl⟩
  | cons call rest ih =>
    obtain ⟨hwf1, hmx, hiff, events, htr, hbrief⟩ := perform_locks sum256 c σ call d hwf
    by_cases hh : (perform sum256 c σ call).1 = Ret.hung
    · simp only [runCalls, hh, if_true]
      rw [hh] at hiff
      refine ⟨hwf1, hmx, ?_, events, htr, hbrief⟩
      rw [hiff]
      simp
    · obtain ⟨iwf, imx, iiff, events2, itr, ibrief⟩ :=
        ih (perform sum256 c σ call).2.1 (perform sum256 c σ call).2.2 hwf1
      simp only [runCalls, hh, if_false]
      refine ⟨iwf, by rw [imx, hmx], ?_, events ++ events2, ?_, ?_⟩
      · rw [iiff, hiff]
        simp only [List.mem_cons, exists_eq_or_imp]
        tauto
      · rw [itr, htr, List.append_assoc]
      · rw [hmx] at ibrief
        exact tableLockBrief_append _ _ _ _ hbrief ibrief

/-- A sequence of calls never removes or replaces an entry of the lock table. -/
theorem runCalls_keeps_mutex (sum256 : List Byte → Array32) (calls : List Call) (c : Cache)
    (σ : Sys) (d : String) (m : Nat) (h : c.mutexes d = some m) :
    (runCalls sum256 c σ calls).2.1.mutexes d = some m := by
  induction calls generalizing c σ with
  | nil => exact h
  | cons call rest ih =>
    have h1 := perform_keeps_mutex sum256 c σ call d m h
    by_cases hh : (perform sum256 c σ call).1 = Ret.hung
    · simpa only [runCalls, hh, if_true] using h1
    · simpa only [runCalls, hh, if_false] using ih _ _ h1

/-- What a successful `CreateCache` returns: the index knows exactly the regular files of
the directory, none loaded; the lock table is empty; the mutexes are well formed. -/
theorem createCache_start (path : String) (σ0 σ1 : Sys) (c : Cache)
    (hc : CreateCache path σ0 = ((some c, none), σ1)) :
    (∀ d, c.knownValues d ≠ none ↔
      ∃ data, σ0.disk.node (resolve path ++ [d]) = some (Node.file data)) ∧
    (∀ d, isLoaded (c.knownValues d) = false) ∧
    (∀ d, c.mutexes d = none) ∧ WellFormed c σ1 ∧ c.folder = path ∧ σ1.disk = σ0.disk ∧
    σ1.trace = σ0.trace := by
  unfold CreateCache at hc
  cases hdir : readDir σ0.disk path with
  | error err =>
    rw [hdir] at hc
    simp at hc
  | ok fileInfos =>
    rw [hdir] at hc
    simp only [Prod.mk.injEq, Option.some.injEq, and_true] at hc
    obtain ⟨rfl, rfl⟩ := hc
    have hany : ∀ name, (fileInfos.any (fun info => decide (info.Name = name) && !info.IsDir))
        = true ↔ ∃ info ∈ fileInfos, info.Name = name ∧ info.IsDir = false := by
      intro name
      simp [List.any_eq_true]
    refine ⟨?_, ?_, fun _ => rfl, ?_, rfl, rfl, rfl⟩
    · intro d
      rw [← readDir_file_entry _ _ _ d hdir, ← hany d]
      simp only [scanInfos_apply]
      split_ifs with h <;> simp [h]
    · intro d
      simp only [scanInfos_apply]
      split_ifs <;> rfl
    · refine ⟨by simp [Sys.newMutex], by simp [Sys.newMutex], ?_⟩
      intro d m h
      cases h


/-! ## Claims about the states a single goroutine can reach -/

theorem createCache_exampleSys :
    CreateCache "/tmp/cache/" exampleSys = ((some scannedCache, none), emptySys) := by
  have hdir : readDir exampleDisk "/tmp/cache/" =
      Except.ok [{ Name := digestA, IsDir := false }, { Name := "sub", IsDir := true }] := by
    decide
  simp [CreateCache, hdir, Sys.newMutex, scanInfos, scannedCache, emptySys, exampleSys]

theorem createCache_crowdedSys0 :
    CreateCache "/tmp/cache/" crowdedSys0 = ((some scannedCache, none), crowdedSys) := by
  have hdir : readDir crowdedDisk "/tmp/cache/" =
      Except.ok [{ Name := digestA, IsDir := false }, { Name := "sub", IsDir := true },
        { Name := digestB, IsDir := true }] := by
    decide
  simp [CreateCache, hdir, Sys.newMutex, scanInfos, scannedCache, crowdedSys, crowdedSys0]

/-- C11, as stated, fails: on the cache `CreateCache("/tmp/cache/")` returns over a
directory that holds a sub-directory named `calcHash("b")`, `put("b", [5])` is attempted
and fails (the name is a directory); no file of that name existed at construction, a
`put` for the digest has been attempted, and yet the digest is not a key of the index. -/
theorem failed_put_leaves_digest_unknown :
    CreateCache "/tmp/cache/" crowdedSys0 = ((some scannedCache, none), crowdedSys) ∧
    calcHash sumBytes256 "b" = digestB ∧
    (runCalls sumBytes256 scannedCache crowdedSys [Call.put "b" (some [5])]).1 =
      [(Call.put "b" (some [5]),
        Ret.put (some (GoError.pathError "open" ("/tmp/cache/" ++ digestB) Errno.EISDIR)))] ∧
    (runCalls sumBytes256 scannedCache crowdedSys
      [Call.put "b" (some [5])]).2.1.knownValues digestB = none ∧
    (runCalls sumBytes256 scannedCache crowdedSys [Call.put "b" (some [5]), Call.has "b"]).1 =
      [(Call.put "b" (some [5]),
        Ret.put (some (GoError.pathError "open" ("/tmp/cache/" ++ digestB) Errno.EISDIR))),
       (Call.has "b", Ret.has false)] :=
  ⟨createCache_crowdedSys0, by decide, by decide, by decide, by decide⟩

/-- C11, amended: in every state a goroutine reaches from a successful `CreateCache(path)`
by `has`, `get` and `put` calls, a digest is a key of the index if and only if a regular
file of that name was in the directory at construction time or a `put` for that digest
has returned a nil error. -/
theorem index_membership (sum256 : List Byte → Array32) (path : String) (σ0 σ1 : Sys)
    (c : Cache) (calls : List Call) (d : String)
    (hc : CreateCache path σ0 = ((some c, none), σ1)) :
    (runCalls sum256 c σ1 calls).2.1.knownValues d ≠ none ↔
      ((∃ data, σ0.disk.node (resolve path ++ [d]) = some (Node.file data)) ∨
        ∃ key content, (Call.put key content, Ret.put none) ∈ (runCalls sum256 c σ1 calls).1 ∧
          calcHash sum256 key = d) := by
  obtain ⟨hstart, -⟩ := createCache_start path σ0 σ1 c hc
  rw [(runCalls_index sum256 calls c σ1 d).1, hstart d]

/-- C11, amended, at concrete inputs: after a failed `put("b", ..)`, a successful
`put("c", ..)` and a `get("a")`, for the digest of `"c"`. -/
theorem index_membership_witness :
    CreateCache "/tmp/cache/" crowdedSys0 = ((some scannedCache, none), crowdedSys) ∧
    ((runCalls sumBytes256 scannedCache crowdedSys
        [Call.put "b" (some [5]), Call.put "c" (some [6]), Call.get "a"]).2.1.knownValues
          (calcHash sumBytes256 "c") ≠ none ↔
      ((∃ data, crowdedSys0.disk.node (resolve "/tmp/cache/" ++ [calcHash sumBytes256 "c"]) =
          some (Node.file data)) ∨
        ∃ key content, (Call.put key content, Ret.put none) ∈
          (runCalls sumBytes256 scannedCache crowdedSys
            [Call.put "b" (some [5]), Call.put "c" (some [6]), Call.get "a"]).1 ∧
          calcHash sumBytes256 key = calcHash sumBytes256 "c")) :=
  ⟨createCache_crowdedSys0,
   index_membership sumBytes256 "/tmp/cache/" crowdedSys0 crowdedSys scannedCache
     [Call.put "b" (some [5]), Call.put "c" (some [6]), Call.get "a"]
     (calcHash sumBytes256 "c") createCache_crowdedSys0⟩


/-- A `get` on a loaded digest with the table lock free: it returns the bytes of the
index with a nil error, leaves index and disk alone, and its only events are the lock
and unlock of the table lock inside `ensureMutex`. -/
theorem get_hit (sum256 : List Byte → Array32) (c : Cache) (σ : Sys) (key : String)
    (b : List Byte) (hk : c.knownValues (calcHash sum256 key) = some (some b))
    (ht : σ.locked c.mutex = false) :
    (get sum256 c σ key).val? = some (some b, none) ∧
    (get sum256 c σ key).cache.knownValues = c.knownValues ∧
    (get sum256 c σ key).sys.disk = σ.disk ∧
    (get sum256 c σ key).sys.trace = σ.trace ++ [Event.lock c.mutex, Event.unlock c.mutex] := by
  refine get_cases sum256 c σ key (fun r =>
    r.val? = some (some b, none) ∧ r.cache.knownValues = c.knownValues ∧
    r.sys.disk = σ.disk ∧
    r.sys.trace = σ.trace ++ [Event.lock c.mutex, Event.unlock c.mutex]) ?_ ?_ ?_ ?_ ?_ ?_
  · intro h; rw [hk] at h; cases h
  · intro _ _ h; rw [ht] at h; cases h
  · intro l m c1 σ1 hl _ hens
    rw [hk] at hl
    injection hl with hl
    injection hl with hl
    subst hl
    obtain ⟨-, -, hkv, -, -, -, -, -, hdisk, htr⟩ := ensureMutex_post _ _ _ _ _ _ hens
    exact ⟨rfl, hkv, hdisk, htr⟩
  · intro m c1 σ1 h; rw [hk] at h; cases h
  · intro m c1 σ1 err h; rw [hk] at h; cases h
  · intro m c1 σ1 data h; rw [hk] at h; cases h

/-- C12, as stated, fails for nil content: on the cache `CreateCache("/tmp/cache/")`
returns, `put("b", nil)` returns a nil error, but the entry of `calcHash("b")` is then
nil, the value of a known, not loaded digest, and the `get("b")` that follows reads the
file from the disk. -/
theorem put_nil_leaves_digest_unloaded :
    CreateCache "/tmp/cache/" exampleSys = ((some scannedCache, none), emptySys) ∧
    calcHash sumBytes256 "b" = digestB ∧
    (runCalls sumBytes256 scannedCache emptySys [Call.put "b" none]).1 =
      [(Call.put "b" none, Ret.put none)] ∧
    (runCalls sumBytes256 scannedCache emptySys [Call.put "b" none]).2.1.knownValues digestB
      = some none ∧
    isLoaded ((runCalls sumBytes256 scannedCache emptySys
      [Call.put "b" none]).2.1.knownValues digestB) = false ∧
    (runCalls sumBytes256 scannedCache emptySys [Call.put "b" none, Call.get "b"]).1 =
      [(Call.put "b" none, Ret.put none), (Call.get "b", Ret.get none none)] ∧
    (runCalls sumBytes256 scannedCache emptySys [Call.put "b" none, Call.get "b"]).2.2.trace =
      [Event.lock 0, Event.unlock 0, Event.lock 1,
        Event.writeFile ("/tmp/cache/" ++ digestB), Event.unlock 1,
        Event.lock 0, Event.unlock 0, Event.lock 1,
        Event.readFile ("/tmp/cache/" ++ digestB), Event.unlock 1] :=
  ⟨createCache_exampleSys, by decide, by decide, by decide, by decide, by decide, by decide⟩

/-- C12, amended: in every state a goroutine reaches from a successful `CreateCache(path)`,
a digest is loaded (its index value is non-nil bytes) exactly as the history of answered
calls tells: the last call on the digest that returned a nil error and was a `get` or a
`put` decides, loaded after a `get` or a `put` of non-nil content, not loaded after a
`put` of nil content, and not loaded when there was no such call. After a `put(k, c)`
with non-nil `c` (empty or not) that returns a nil error, the entry of `calcHash(k)` is
`c` and the `get(k)` that follows returns `c` with a nil error, with the disk and the
index unchanged and no event but the lock and unlock of the table lock. -/
theorem loaded_state (sum256 : List Byte → Array32) (path : String) (σ0 σ1 : Sys)
    (c : Cache) (calls : List Call) (d : String)
    (hc : CreateCache path σ0 = ((some c, none), σ1)) :
    isLoaded ((runCalls sum256 c σ1 calls).2.1.knownValues d) =
      loadedAfter sum256 d false (runCalls sum256 c σ1 calls).1 ∧
    ∀ (key : String) (l : List Byte),
      (put sum256 (runCalls sum256 c σ1 calls).2.1 (runCalls sum256 c σ1 calls).2.2 key
        (some l)).val? = some none →
      (put sum256 (runCalls sum256 c σ1 calls).2.1 (runCalls sum256 c σ1 calls).2.2 key
        (some l)).cache.knownValues (calcHash sum256 key) = some (some l) ∧
      (get sum256
        (put sum256 (runCalls sum256 c σ1 calls).2.1 (runCalls sum256 c σ1 calls).2.2 key
          (some l)).cache
        (put sum256 (runCalls sum256 c σ1 calls).2.1 (runCalls sum256 c σ1 calls).2.2 key
          (some l)).sys key).val? = some (some l, none) ∧
      (get sum256
        (put sum256 (runCalls sum256 c σ1 calls).2.1 (runCalls sum256 c σ1 calls).2.2 key
          (some l)).cache
        (put sum256 (runCalls sum256 c σ1 calls).2.1 (runCalls sum256 c σ1 calls).2.2 key
          (some l)).sys key).sys.disk =
        (put sum256 (runCalls sum256 c σ1 calls).2.1 (runCalls sum256 c σ1 calls).2.2 key
          (some l)).sys.disk ∧
      (get sum256
        (put sum256 (runCalls sum256 c σ1 calls).2.1 (runCalls sum256 c σ1 calls).2.2 key
          (some l)).cache
        (put sum256 (runCalls sum256 c σ1 calls).2.1 (runCalls sum256 c σ1 calls).2.2 key
          (some l)).sys key).cache.knownValues =
        (put sum256 (runCalls sum256 c σ1 calls).2.1 (runCalls sum256 c σ1 calls).2.2 key
          (some l)).cache.knownValues ∧
      (get sum256
        (put sum256 (runCalls sum256 c σ1 calls).2.1 (runCalls sum256 c σ1 calls).2.2 key
          (some l)).cache
        (put sum256 (runCalls sum256 c σ1 calls).2.1 (runCalls sum256 c σ1 calls).2.2 key
          (some l)).sys key).sys.trace =
        (put sum256 (runCalls sum256 c σ1 calls).2.1 (runCalls sum256 c σ1 calls).2.2 key
          (some l)).sys.trace ++ [Event.lock c.mutex, Event.unlock c.mutex] := by
  obtain ⟨-, hunl, -, hwf, -⟩ := createCache_start path σ0 σ1 c hc
  refine ⟨?_, ?_⟩
  · rw [(runCalls_index sum256 calls c σ1 d).2, hunl d]
  · intro key l hput
    obtain ⟨-, hmx, -⟩ := runCalls_locks sum256 calls c σ1 d hwf
    generalize (runCalls sum256 c σ1 calls).2.1 = c2 at hput hmx ⊢
    generalize (runCalls sum256 c σ1 calls).2.2 = σ2 at hput ⊢
    have hrun := run_of_val _ _ _ hput
    obtain ⟨mutex, -, hmx2, -, -, hlt, hok, -⟩ := put_done _ _ _ _ _ _ _ _ hrun
    obtain ⟨hkv, -⟩ := hok rfl
    have hk : (put sum256 c2 σ2 key (some l)).cache.knownValues (calcHash sum256 key)
        = some (some l) := by rw [hkv]; simp [mapSet]
    have ht : (put sum256 c2 σ2 key (some l)).sys.locked
        (put sum256 c2 σ2 key (some l)).cache.mutex = false := by rw [hmx2]; exact hlt
    obtain ⟨g1, g2, g3, g4⟩ := get_hit sum256 _ _ key l hk ht
    refine ⟨hk, g1, g3, g2, ?_⟩
    rw [g4, hmx2, hmx]

/-- C12, amended, at concrete inputs: the digest of `"b"` after `put("b", nil)`,
`get("b")`, `put("b", [])`. -/
theorem loaded_state_witness :
    CreateCache "/tmp/cache/" exampleSys = ((some scannedCache, none), emptySys) ∧
    isLoaded ((runCalls sumBytes256 scannedCache emptySys
      [Call.put "b" none, Call.get "b", Call.put "b" (some [])]).2.1.knownValues digestB) =
      loadedAfter sumBytes256 digestB false (runCalls sumBytes256 scannedCache emptySys
        [Call.put "b" none, Call.get "b", Call.put "b" (some [])]).1 :=
  ⟨createCache_exampleSys,
   (loaded_state sumBytes256 "/tmp/cache/" exampleSys emptySys scannedCache
     [Call.put "b" none, Call.get "b", Call.put "b" (some [])] digestB
     createCache_exampleSys).1⟩


/-- C13, as stated, fails: on the cache `CreateCache("/tmp/cache/")` returns, `get("b")`
is invoked for a digest the index does not know; it returns the key-not-known error
before `ensureMutex` runs, and the lock table has no entry for the digest although `get`
has been invoked for it. -/
theorem get_unknown_creates_no_lock :
    CreateCache "/tmp/cache/" exampleSys = ((some scannedCache, none), emptySys) ∧
    calcHash sumBytes256 "b" = digestB ∧
    (runCalls sumBytes256 scannedCache emptySys [Call.get "b"]).1 =
      [(Call.get "b", Ret.get none (some (GoError.errorString
        ("Key '" ++ digestB ++ "' is not known to cache"))))] ∧
    (runCalls sumBytes256 scannedCache emptySys [Call.get "b"]).2.1.mutexes digestB = none :=
  ⟨createCache_exampleSys, by decide, by decide, by decide⟩

/-- C13, amended: in every state a goroutine reaches from a successful `CreateCache(path)`
by `has`, `get` and `put` calls, the lock table has an entry for a digest if and only if
`put` has been invoked for that digest, or `get` has been invoked for it and was not
answered with the key-not-known error (the digest was in the index at that call); and no
later call removes or replaces an entry. -/
theorem lock_table_entries (sum256 : List Byte → Array32) (path : String) (σ0 σ1 : Sys)
    (c : Cache) (calls : List Call) (d : String)
    (hc : CreateCache path σ0 = ((some c, none), σ1)) :
    ((runCalls sum256 c σ1 calls).2.1.mutexes d ≠ none ↔
      ∃ e ∈ (runCalls sum256 c σ1 calls).1, usesMutex sum256 d e = true) ∧
    ∀ (more : List Call) (m : Nat), (runCalls sum256 c σ1 calls).2.1.mutexes d = some m →
      (runCalls sum256 (runCalls sum256 c σ1 calls).2.1 (runCalls sum256 c σ1 calls).2.2
        more).2.1.mutexes d = some m := by
  obtain ⟨-, -, hempty, hwf, -⟩ := createCache_start path σ0 σ1 c hc
  refine ⟨?_, ?_⟩
  · rw [(runCalls_locks sum256 calls c σ1 d hwf).2.2.1]
    simp [hempty d]
  · intro more m hm
    exact runCalls_keeps_mutex sum256 more _ _ d m hm

/-- C13, amended, at concrete inputs: the digest of `"b"` after a `get("b")` answered
with the key-not-known error, a `put("b", [5])` and a `get("b")`. -/
theorem lock_table_entries_witness :
    CreateCache "/tmp/cache/" exampleSys = ((some scannedCache, none), emptySys) ∧
    ((runCalls sumBytes256 scannedCache emptySys
        [Call.get "b", Call.put "b" (some [5]), Call.get "b"]).2.1.mutexes digestB ≠ none ↔
      ∃ e ∈ (runCalls sumBytes256 scannedCache emptySys
        [Call.get "b", Call.put "b" (some [5]), Call.get "b"]).1,
          usesMutex sumBytes256 digestB e = true) :=
  ⟨createCache_exampleSys,
   (lock_table_entries sumBytes256 "/tmp/cache/" exampleSys emptySys scannedCache
     [Call.get "b", Call.put "b" (some [5]), Call.get "b"] digestB
     createCache_exampleSys).1⟩

/-! ## Claims about a single call -/

/-- C15 (cache hit): on a digest the index maps to bytes `b`, with the table lock free,
`get` returns `(b, nil)`; the index and the disk are unchanged, and the only events of
the call are the lock and the unlock of the table lock inside `ensureMutex`: no file is
read or written and the mutex of the digest is not locked. -/
theorem get_cache_hit (sum256 : List Byte → Array32) (c : Cache) (σ : Sys) (key : String)
    (b : List Byte) (hk : c.knownValues (calcHash sum256 key) = some (some b))
    (ht : σ.locked c.mutex = false) :
    (get sum256 c σ key).val? = some (some b, none) ∧
    (get sum256 c σ key).cache.knownValues = c.knownValues ∧
    (get sum256 c σ key).sys.disk = σ.disk ∧
    (get sum256 c σ key).sys.trace = σ.trace ++ [Event.lock c.mutex, Event.unlock c.mutex] ∧
    (∀ p, Event.readFile p ∉ [Event.lock c.mutex, Event.unlock c.mutex] ∧
      Event.writeFile p ∉ [Event.lock c.mutex, Event.unlock c.mutex]) ∧
    (∀ m, m ≠ c.mutex → Event.lock m ∉ [Event.lock c.mutex, Event.unlock c.mutex]) := by
  obtain ⟨h1, h2, h3, h4⟩ := get_hit sum256 c σ key b hk ht
  refine ⟨h1, h2, h3, h4, ?_, ?_⟩
  · intro p
    simp
  · intro m hm
    simp [hm]

/-- C15 at a concrete input: the digest of `"a"` loaded with `[1, 2]`. -/
theorem get_cache_hit_witness :
    (orphanCache.knownValues (calcHash sumBytes256 "a") = some (some [1, 2]) ∧
      emptySys.locked orphanCache.mutex = false) ∧
    (get sumBytes256 orphanCache emptySys "a").val? = some (some [1, 2], none) ∧
    (get sumBytes256 orphanCache emptySys "a").sys.trace =
      emptySys.trace ++ [Event.lock orphanCache.mutex, Event.unlock orphanCache.mutex] :=
  ⟨⟨by decide, by decide⟩,
   (get_cache_hit sumBytes256 orphanCache emptySys "a" [1, 2] (by decide) (by decide)).1,
   (get_cache_hit sumBytes256 orphanCache emptySys "a" [1, 2] (by decide) (by decide)).2.2.2.1⟩

/-- C16 (`put` releases the lock of the digest on every path): when `put` returns, with
a nil error or with the error of the write, the events of the call are: lock and unlock
of the table lock, lock of the mutex of the digest, the write of the file, unlock of
that mutex; the mutex is held while the file is written and free when `put` returns. -/
theorem put_releases_lock (sum256 : List Byte → Array32) (c : Cache) (σ : Sys)
    (key : String) (content : Bytes) (err : Option GoError)
    (h : (put sum256 c σ key content).val? = some err) :
    ∃ m, (put sum256 c σ key content).cache.mutexes (calcHash sum256 key) = some m ∧
      (put sum256 c σ key content).sys.trace = σ.trace ++
        [Event.lock c.mutex, Event.unlock c.mutex, Event.lock m,
          Event.writeFile (c.folder ++ calcHash sum256 key), Event.unlock m] ∧
      (put sum256 c σ key content).sys.locked m = false := by
  revert h
  refine put_cases sum256 c σ key content (fun r => r.val? = some err →
    ∃ m, r.cache.mutexes (calcHash sum256 key) = some m ∧
      r.sys.trace = σ.trace ++
        [Event.lock c.mutex, Event.unlock c.mutex, Event.lock m,
          Event.writeFile (c.folder ++ calcHash sum256 key), Event.unlock m] ∧
      r.sys.locked m = false) ?_ ?_ ?_ ?_
  · intro _ h
    simp [Run.val?] at h
  · intro m c1 σ1 _ _ _ h
    simp [Run.val?] at h
  · intro m c1 σ1 e _ hens _ _ _
    obtain ⟨-, hf, -, -, hmh, -, -, -, -, htr⟩ := ensureMutex_post _ _ _ _ _ _ hens
    exact ⟨m, hmh, by simp [Run.sys, htr, hf], by simp [Run.sys]⟩
  · intro m c1 σ1 disk1 _ hens _ _ _
    obtain ⟨-, hf, -, -, hmh, -, -, -, -, htr⟩ := ensureMutex_post _ _ _ _ _ _ hens
    exact ⟨m, by simpa [Run.cache] using hmh, by simp [Run.sys, htr, hf], by simp [Run.sys]⟩

/-- C16 at concrete inputs: a `put` whose write succeeds and a `put` whose write fails. -/
theorem put_releases_lock_witness :
    ((put sumBytes256 scannedCache emptySys "b" (some [5])).val? = some none ∧
      ∃ m, (put sumBytes256 scannedCache emptySys "b" (some [5])).cache.mutexes
          (calcHash sumBytes256 "b") = some m ∧
        (put sumBytes256 scannedCache emptySys "b" (some [5])).sys.trace = emptySys.trace ++
          [Event.lock scannedCache.mutex, Event.unlock scannedCache.mutex, Event.lock m,
            Event.writeFile (scannedCache.folder ++ calcHash sumBytes256 "b"),
            Event.unlock m] ∧
        (put sumBytes256 scannedCache emptySys "b" (some [5])).sys.locked m = false) ∧
    ((put sumBytes256 orphanCache emptySys "b" (some [5])).val? =
        some (some (GoError.pathError "open" ("/gone/" ++ digestB) Errno.ENOENT)) ∧
      ∃ m, (put sumBytes256 orphanCache emptySys "b" (some [5])).cache.mutexes
          (calcHash sumBytes256 "b") = some m ∧
        (put sumBytes256 orphanCache emptySys "b" (some [5])).sys.trace = emptySys.trace ++
          [Event.lock orphanCache.mutex, Event.unlock orphanCache.mutex, Event.lock m,
            Event.writeFile (orphanCache.folder ++ calcHash sumBytes256 "b"),
            Event.unlock m] ∧
        (put sumBytes256 orphanCache emptySys "b" (some [5])).sys.locked m = false) :=
  ⟨⟨by decide, put_releases_lock sumBytes256 scannedCache emptySys "b" (some [5]) none
      (by decide)⟩,
   ⟨by decide, put_releases_lock sumBytes256 orphanCache emptySys "b" (some [5])
      (some (GoError.pathError "open" ("/gone/" ++ digestB) Errno.ENOENT)) (by decide)⟩⟩


/-- C17 (`ensureMutex` keeps one lock per digest): with the table lock free, `ensureMutex`
returns. When a mutex is stored for the digest it returns that mutex and leaves the lock
table as it is; otherwise it returns a new, unlocked mutex (the next address, which no
entry of a well-formed lock table holds) and stores it for the digest. The entries of
all other digests are unchanged, and a second `ensureMutex` for the digest returns the
same mutex and leaves the lock table as the first call left it. -/
theorem ensureMutex_one_lock (c : Cache) (σ : Sys) (d : String)
    (ht : σ.locked c.mutex = false) :
    ∃ m c1 σ1, ensureMutex c σ d = Run.done m c1 σ1 ∧
      (∀ m0, c.mutexes d = some m0 → m = m0 ∧ c1.mutexes = c.mutexes) ∧
      (c.mutexes d = none →
        m = σ.next ∧ σ1.next = σ.next + 1 ∧ σ1.locked m = false ∧
        c1.mutexes = mapSet c.mutexes d m ∧
        (WellFormed c σ → m ≠ c.mutex ∧ ∀ d1 m1, c.mutexes d1 = some m1 → m1 ≠ m)) ∧
      c1.mutexes d = some m ∧
      (∀ d1, d1 ≠ d → c1.mutexes d1 = c.mutexes d1) ∧
      ∃ σ2, ensureMutex c1 σ1 d = Run.done m c1 σ2 := by
  cases hm : c.mutexes d with
  | some m0 =>
    have he : ensureMutex c σ d = Run.done m0 c ((σ.held c.mutex).unlock c.mutex) := by
      simp [ensureMutex, sys_lock_eq, ht, hm]
    refine ⟨m0, c, (σ.held c.mutex).unlock c.mutex, he, ?_, ?_, hm, fun _ _ => rfl, ?_⟩
    · intro m1 h1
      cases h1
      exact ⟨rfl, rfl⟩
    · intro h; cases h
    · obtain ⟨σ2, h2, -⟩ := ensureMutex_of_known c ((σ.held c.mutex).unlock c.mutex) d m0
        (by simp) hm
      exact ⟨σ2, h2⟩
  | none =>
    have he : ensureMutex c σ d = Run.done σ.next
        { c with mutexes := mapSet c.mutexes d σ.next }
        (((σ.held c.mutex).newMutex.2).unlock c.mutex) := by
      simp [ensureMutex, sys_lock_eq, ht, hm, Sys.newMutex]
    refine ⟨σ.next, { c with mutexes := mapSet c.mutexes d σ.next },
      ((σ.held c.mutex).newMutex.2).unlock c.mutex, he, ?_, ?_, by simp [mapSet], ?_, ?_⟩
    · intro m0 h; cases h
    · intro _
      refine ⟨rfl, rfl, by simp [Sys.newMutex], rfl, ?_⟩
      intro hwf
      obtain ⟨-, hlt, hall⟩ := hwf
      refine ⟨by omega, ?_⟩
      intro d1 m1 h1
      have := hall d1 m1 h1
      omega
    · intro d1 hd1
      simp [mapSet, hd1]
    · obtain ⟨σ2, h2, -⟩ := ensureMutex_of_known
        { c with mutexes := mapSet c.mutexes d σ.next }
        (((σ.held c.mutex).newMutex.2).unlock c.mutex) d σ.next (by simp)
        (by simp [mapSet])
      exact ⟨σ2, h2⟩

/-- C17 at concrete inputs: the lock table of `scannedCache` is empty, the table lock is
free; `ensureMutex` for the digest of `"a"`. -/
theorem ensureMutex_one_lock_witness :
    emptySys.locked scannedCache.mutex = false ∧
    ∃ m c1 σ1, ensureMutex scannedCache emptySys digestA = Run.done m c1 σ1 ∧
      (∀ m0, scannedCache.mutexes digestA = some m0 →
        m = m0 ∧ c1.mutexes = scannedCache.mutexes) ∧
      (scannedCache.mutexes digestA = none →
        m = emptySys.next ∧ σ1.next = emptySys.next + 1 ∧ σ1.locked m = false ∧
        c1.mutexes = mapSet scannedCache.mutexes digestA m ∧
        (WellFormed scannedCache emptySys →
          m ≠ scannedCache.mutex ∧ ∀ d1 m1, scannedCache.mutexes d1 = some m1 → m1 ≠ m)) ∧
      c1.mutexes digestA = some m ∧
      (∀ d1, d1 ≠ digestA → c1.mutexes d1 = scannedCache.mutexes d1) ∧
      ∃ σ2, ensureMutex c1 σ1 digestA = Run.done m c1 σ2 :=
  ⟨by decide, ensureMutex_one_lock scannedCache emptySys digestA (by decide)⟩

theorem tableLockBrief_io (addr : Nat) (pre post : List Event) (ev : Event) (held : Bool)
    (hb : tableLockBrief addr held (pre ++ ev :: post) = true)
    (hio : ∃ p, ev = Event.readFile p ∨ ev = Event.writeFile p) :
    heldAfter addr held pre = false := by
  induction pre generalizing held with
  | nil =>
    obtain ⟨p, rfl | rfl⟩ := hio
    · simp only [List.nil_append, tableLockBrief, Bool.and_eq_true, Bool.not_eq_true'] at hb
      simpa [heldAfter] using hb.1
    · simp only [List.nil_append, tableLockBrief, Bool.and_eq_true, Bool.not_eq_true'] at hb
      simpa [heldAfter] using hb.1
  | cons e rest ih =>
    cases e with
    | lock a =>
      simp only [List.cons_append, tableLockBrief, Bool.and_eq_true, Bool.not_eq_true'] at hb
      obtain ⟨hh, hrest⟩ := hb
      subst hh
      simpa [heldAfter] using ih _ hrest
    | unlock a =>
      simp only [List.cons_append, tableLockBrief, Bool.and_eq_true] at hb
      simpa [heldAfter] using ih _ hb.2
    | readFile p =>
      simp only [List.cons_append, tableLockBrief, Bool.and_eq_true] at hb
      simpa [heldAfter] using ih _ hb.2
    | writeFile p =>
      simp only [List.cons_append, tableLockBrief, Bool.and_eq_true] at hb
      simpa [heldAfter] using ih _ hb.2

/-- C18 (the table lock never covers file I/O): along every sequence of `has`, `get` and
`put` calls a goroutine makes from a successful `CreateCache(path)`, also one whose last
call never returns, the table lock is the one `CreateCache` made; in the events of the
calls every lock of the table lock is followed at once by its unlock (the look-up or
insertion in `ensureMutex` has no event), so at every read or write of a file the table
lock is not held; the table lock is free at the end of the sequence, and free whenever
`ensureMutex` returns. -/
theorem table_lock_never_covers_io (sum256 : List Byte → Array32) (path : String)
    (σ0 σ1 : Sys) (c : Cache) (calls : List Call)
    (hc : CreateCache path σ0 = ((some c, none), σ1)) :
    (runCalls sum256 c σ1 calls).2.1.mutex = c.mutex ∧
    (runCalls sum256 c σ1 calls).2.2.locked c.mutex = false ∧
    (∃ events, (runCalls sum256 c σ1 calls).2.2.trace = σ1.trace ++ events ∧
      tableLockBrief c.mutex false events = true ∧
      ∀ pre ev post, events = pre ++ ev :: post →
        (∃ p, ev = Event.readFile p ∨ ev = Event.writeFile p) →
        heldAfter c.mutex false pre = false) ∧
    ∀ d m c1 σ2, ensureMutex (runCalls sum256 c σ1 calls).2.1
      (runCalls sum256 c σ1 calls).2.2 d = Run.done m c1 σ2 →
      σ2.locked c.mutex = false := by
  obtain ⟨-, -, -, hwf, -⟩ := createCache_start path σ0 σ1 c hc
  obtain ⟨hwf2, hmx, -, events, htr, hbrief⟩ := runCalls_locks sum256 calls c σ1 "" hwf
  refine ⟨hmx, ?_, ⟨events, htr, hbrief, ?_⟩, ?_⟩
  · rw [← hmx]; exact hwf2.1
  · intro pre ev post hev hio
    rw [hev] at hbrief
    exact tableLockBrief_io _ _ _ _ _ hbrief hio
  · intro d m c1 σ2 hens
    have := (ensureMutex_done _ _ _ _ _ _ hens).2.2.2.2.2
    rw [hmx] at this
    exact this

/-- C18 at concrete inputs: a `put`, a `get` that loads a file and a `get` of an unknown
key on the cache `CreateCache("/tmp/cache/")` returns. -/
theorem table_lock_never_covers_io_witness :
    CreateCache "/tmp/cache/" exampleSys = ((some scannedCache, none), emptySys) ∧
    (runCalls sumBytes256 scannedCache emptySys
      [Call.put "b" (some [5]), Call.get "a", Call.get "c"]).2.2.locked scannedCache.mutex
      = false ∧
    ∃ events, (runCalls sumBytes256 scannedCache emptySys
        [Call.put "b" (some [5]), Call.get "a", Call.get "c"]).2.2.trace
        = emptySys.trace ++ events ∧
      tableLockBrief scannedCache.mutex false events = true ∧
      ∀ pre ev post, events = pre ++ ev :: post →
        (∃ p, ev = Event.readFile p ∨ ev = Event.writeFile p) →
        heldAfter scannedCache.mutex false pre = false :=
  ⟨createCache_exampleSys,
   (table_lock_never_covers_io sumBytes256 "/tmp/cache/" exampleSys emptySys scannedCache
     [Call.put "b" (some [5]), Call.get "a", Call.get "c"] createCache_exampleSys).2.1,
   (table_lock_never_covers_io sumBytes256 "/tmp/cache/" exampleSys emptySys scannedCache
     [Call.put "b" (some [5]), Call.get "a", Call.get "c"] createCache_exampleSys).2.2.1⟩

/-- C19 at a failing input: on the cache `CreateCache("/tmp/cache/")` returns over a
directory holding the file of `"a"` with contents `[1, 2]`, two `get("a")` in a row, no
`put` between them and the disk the same before, between and after; both return a nil
error, the first returns nil bytes and the second `[1, 2]`. -/
theorem consecutive_gets_disagree :
    CreateCache "/tmp/cache/" exampleSys = ((some scannedCache, none), emptySys) ∧
    (runCalls sumBytes256 scannedCache emptySys [Call.get "a", Call.get "a"]).1 =
      [(Call.get "a", Ret.get none none), (Call.get "a", Ret.get (some [1, 2]) none)] ∧
    (runCalls sumBytes256 scannedCache emptySys [Call.get "a"]).2.2.disk = exampleDisk ∧
    (runCalls sumBytes256 scannedCache emptySys [Call.get "a", Call.get "a"]).2.2.disk =
      exampleDisk ∧
    emptySys.disk = exampleDisk :=
  ⟨createCache_exampleSys, by decide, by decide, by decide, rfl⟩


/-! ## The files of different digests -/

theorem splitSlash_no_slash (x : List Char) (hx : '/' ∉ x) : splitSlash x = [x] := by
  induction x with
  | nil => rfl
  | cons ch rest ih =>
    have hch : ch ≠ '/' := fun h => hx (by simp [h])
    have hrest : '/' ∉ rest := fun h => hx (List.mem_cons_of_mem _ h)
    simp [splitSlash, ih hrest, hch]

/-- The pieces of a path with a separator-free name appended: the name goes onto the
last piece. -/
theorem splitSlash_append (a : List Char) :
    ∃ front last, ∀ x : List Char, '/' ∉ x →
      splitSlash (a ++ x) = front ++ [last ++ x] := by
  induction a with
  | nil =>
    refine ⟨[], [], ?_⟩
    intro x hx
    simpa using splitSlash_no_slash x hx
  | cons ch rest ih =>
    obtain ⟨front, last, h⟩ := ih
    cases front with
    | nil =>
      by_cases hch : ch = '/'
      · refine ⟨[[]], last, ?_⟩
        intro x hx
        simp [splitSlash, h x hx, hch]
      · refine ⟨[], ch :: last, ?_⟩
        intro x hx
        simp [splitSlash, h x hx, hch]
    | cons q front1 =>
      by_cases hch : ch = '/'
      · refine ⟨[] :: q :: front1, last, ?_⟩
        intro x hx
        simp [splitSlash, h x hx, hch]
      · refine ⟨(ch :: q) :: front1, last, ?_⟩
        intro x hx
        simp [splitSlash, h x hx, hch]

/-- A path ending in a separator-free name of two or more characters resolves to the
names before it followed by one last name that ends in it. -/
theorem resolve_append (folder : String) :
    ∃ front last, ∀ x : String, '/' ∉ x.toList → 2 ≤ x.toList.length →
      resolve (folder ++ x) = front ++ [String.mk (last ++ x.toList)] := by
  obtain ⟨front, last, h⟩ := splitSlash_append folder.toList
  refine ⟨(front.map String.mk).filter (fun piece => piece ≠ "" ∧ piece ≠ "."), last, ?_⟩
  intro x hx hlen
  have hsplit : splitSlash (folder ++ x).toList = front ++ [last ++ x.toList] := by
    rw [← h x.toList hx]
    rfl
  have hne1 : String.mk (last ++ x.toList) ≠ "" := by
    intro hh
    have h0 : last ++ x.toList = [] := congrArg String.data hh
    have h1 := congrArg List.length h0
    simp only [List.length_append, List.length_nil] at h1
    omega
  have hne2 : String.mk (last ++ x.toList) ≠ "." := by
    intro hh
    have h0 : last ++ x.toList = ['.'] := congrArg String.data hh
    have h1 := congrArg List.length h0
    simp only [List.length_append, List.length_cons, List.length_nil] at h1
    omega
  have hlast : List.filter (fun piece => decide (piece ≠ "" ∧ piece ≠ "."))
      [String.mk (last ++ x.toList)] = [String.mk (last ++ x.toList)] := by
    rw [List.filter_cons]
    have : decide (String.mk (last ++ x.toList) ≠ "" ∧ String.mk (last ++ x.toList) ≠ ".")
        = true := decide_eq_true ⟨hne1, hne2⟩
    rw [if_pos this]
    rfl
  unfold resolve
  rw [hsplit, List.map_append, List.filter_append]
  exact congrArg _ hlast

/-- The characters of a digest: 64 of them, none a separator. -/
theorem calcHash_chars (sum256 : List Byte → Array32) (key : String) :
    '/' ∉ (calcHash sum256 key).toList ∧ (calcHash sum256 key).toList.length = 64 := by
  constructor
  · intro hmem
    have h1 : '/' ∈ hextable := mem_flatten_hexByte _ _ hmem
    revert h1
    decide
  · show ((((sum256 (stringBytes key)).val).map hexByte).flatten).length = 64
    rw [length_flatten_hexByte, (sum256 (stringBytes key)).property]

/-- The files of two different digests in the same folder are different files. -/
theorem resolve_digest_ne (sum256 : List Byte → Array32) (folder key key2 : String)
    (hd : calcHash sum256 key2 ≠ calcHash sum256 key) :
    resolve (folder ++ calcHash sum256 key2) ≠ resolve (folder ++ calcHash sum256 key) := by
  obtain ⟨front, last, h⟩ := resolve_append folder
  obtain ⟨hs1, hl1⟩ := calcHash_chars sum256 key
  obtain ⟨hs2, hl2⟩ := calcHash_chars sum256 key2
  rw [h _ hs1 (by omega), h _ hs2 (by omega)]
  intro heq
  have h1 := List.append_cancel_left heq
  simp only [List.cons.injEq, and_true] at h1
  have h2 : last ++ (calcHash sum256 key2).toList = last ++ (calcHash sum256 key).toList :=
    congrArg String.data h1
  have h3 := List.append_cancel_left h2
  exact hd (String.ext h3)

/-- A write leaves every node but the one it writes as it was. -/
theorem writeFile_node_other (d d1 : Disk) (filename : String) (data : Bytes) (q : Path)
    (h : writeFile d filename data = Except.ok d1) (hq : q ≠ resolve filename) :
    d1.node q = d.node q := by
  unfold writeFile at h
  split_ifs at h with hname
  split at h
  · cases h
  · split at h
    · cases h
    · cases h
    · injection h with h
      subst h
      by_cases hnil : q = []
      · simp [Disk.node, hnil]
      · have hq1 : ¬ resolve filename = q := fun hh => hq hh.symm
        simp only [Disk.node, hnil, if_false, List.find?_cons, hq1, decide_False,
          List.find?_filter]
        have hpred : (fun (a : Path × Node) =>
            decide (decide (a.1 ≠ resolve filename) = true ∧ decide (a.1 = q) = true))
            = (fun (a : Path × Node) => decide (a.1 = q)) := by
          funext a
          by_cases ha : a.1 = q
          · simp [ha, hq]
          · simp [ha]
        rw [hpred]


/-- The events of a `get` hold no write of a file. -/
theorem get_never_writes (sum256 : List Byte → Array32) (c : Cache) (σ : Sys)
    (key : String) :
    ∃ events, (get sum256 c σ key).sys.trace = σ.trace ++ events ∧
      ∀ p, Event.writeFile p ∉ events := by
  refine get_cases sum256 c σ key (fun r =>
    ∃ events, r.sys.trace = σ.trace ++ events ∧ ∀ p, Event.writeFile p ∉ events)
    ?_ ?_ ?_ ?_ ?_ ?_
  · intro _
    exact ⟨[], by simp [Run.sys], by simp⟩
  · intro _ _ _
    exact ⟨[], by simp [Run.sys], by simp⟩
  · intro l m c1 σ1 _ _ hens
    obtain ⟨-, -, -, -, -, -, -, -, -, htr⟩ := ensureMutex_post _ _ _ _ _ _ hens
    exact ⟨_, htr, by simp⟩
  · intro m c1 σ1 _ _ hens _
    obtain ⟨-, -, -, -, -, -, -, -, -, htr⟩ := ensureMutex_post _ _ _ _ _ _ hens
    exact ⟨_, htr, by simp⟩
  · intro m c1 σ1 err _ _ hens _ _
    obtain ⟨-, -, -, -, -, -, -, -, -, htr⟩ := ensureMutex_post _ _ _ _ _ _ hens
    refine ⟨[Event.lock c.mutex, Event.unlock c.mutex, Event.lock m,
      Event.readFile (c1.folder ++ calcHash sum256 key)], by simp [Run.sys, htr], by simp⟩
  · intro m c1 σ1 data _ _ hens _ _
    obtain ⟨-, -, -, -, -, -, -, -, -, htr⟩ := ensureMutex_post _ _ _ _ _ _ hens
    refine ⟨[Event.lock c.mutex, Event.unlock c.mutex, Event.lock m,
      Event.readFile (c1.folder ++ calcHash sum256 key), Event.unlock m],
      by simp [Run.sys, htr], by simp⟩

/-- A `put` leaves every node of the disk but the file of its digest as it was. -/
theorem put_node_other (sum256 : List Byte → Array32) (c : Cache) (σ : Sys) (key : String)
    (content : Bytes) (q : Path) (hq : q ≠ resolve (c.folder ++ calcHash sum256 key)) :
    (put sum256 c σ key content).sys.disk.node q = σ.disk.node q := by
  refine put_cases sum256 c σ key content (fun r => r.sys.disk.node q = σ.disk.node q)
    ?_ ?_ ?_ ?_
  · intro _
    rfl
  · intro m c1 σ1 _ hens _
    obtain ⟨-, -, -, -, -, -, -, -, hdisk, -⟩ := ensureMutex_post _ _ _ _ _ _ hens
    simp [Run.sys, hdisk]
  · intro m c1 σ1 err _ hens _ _
    obtain ⟨-, -, -, -, -, -, -, -, hdisk, -⟩ := ensureMutex_post _ _ _ _ _ _ hens
    simp [Run.sys, hdisk]
  · intro m c1 σ1 disk1 _ hens _ hw
    obtain ⟨-, hf, -, -, -, -, -, -, hdisk, -⟩ := ensureMutex_post _ _ _ _ _ _ hens
    rw [hf] at hw
    have := writeFile_node_other _ _ _ _ q hw hq
    simpa [Run.sys, hdisk] using this

/-- C20 (per-key frame): for a digest `d` (the digest of some key) different from
`calcHash(k)`, neither `has(k)`, `get(k)` nor `put(k, c)`, whichever way the call goes,
changes the index entry of `d`, the lock-table entry of `d`, or the file stored for `d`;
`has` and `get` leave the whole disk as it is, `has` has no event at all and the events
of `get` hold no write of a file. -/
theorem per_key_frame (sum256 : List Byte → Array32) (c : Cache) (σ : Sys)
    (key key2 : String) (content : Bytes)
    (hd : calcHash sum256 key2 ≠ calcHash sum256 key) :
    ((has sum256 c σ key).cache.knownValues (calcHash sum256 key2) =
        c.knownValues (calcHash sum256 key2) ∧
      (has sum256 c σ key).cache.mutexes (calcHash sum256 key2) =
        c.mutexes (calcHash sum256 key2) ∧
      (has sum256 c σ key).sys.disk = σ.disk ∧
      (has sum256 c σ key).sys.trace = σ.trace) ∧
    ((get sum256 c σ key).cache.knownValues (calcHash sum256 key2) =
        c.knownValues (calcHash sum256 key2) ∧
      (get sum256 c σ key).cache.mutexes (calcHash sum256 key2) =
        c.mutexes (calcHash sum256 key2) ∧
      (get sum256 c σ key).sys.disk = σ.disk ∧
      ∃ events, (get sum256 c σ key).sys.trace = σ.trace ++ events ∧
        ∀ p, Event.writeFile p ∉ events) ∧
    ((put sum256 c σ key content).cache.knownValues (calcHash sum256 key2) =
        c.knownValues (calcHash sum256 key2) ∧
      (put sum256 c σ key content).cache.mutexes (calcHash sum256 key2) =
        c.mutexes (calcHash sum256 key2) ∧
      (put sum256 c σ key content).sys.disk.node
          (resolve (c.folder ++ calcHash sum256 key2)) =
        σ.disk.node (resolve (c.folder ++ calcHash sum256 key2)) ∧
      readFile (put sum256 c σ key content).sys.disk (c.folder ++ calcHash sum256 key2) =
        readFile σ.disk (c.folder ++ calcHash sum256 key2)) := by
  refine ⟨⟨rfl, rfl, rfl, rfl⟩, ⟨?_, ?_, ?_, ?_⟩, ⟨?_, ?_, ?_, ?_⟩⟩
  · exact (get_index sum256 c σ key _).2.2 hd
  · exact (get_frame sum256 c σ key).2.2.2.2 _ hd
  · exact (get_frame sum256 c σ key).2.2.1
  · exact get_never_writes sum256 c σ key
  · exact (put_index sum256 c σ key content _).2.2 hd
  · exact (put_frame sum256 c σ key content).2.2.2 _ hd
  · exact put_node_other sum256 c σ key content _ (resolve_digest_ne sum256 c.folder key key2 hd)
  · have hnode := put_node_other sum256 c σ key content _
      (resolve_digest_ne sum256 c.folder key key2 hd)
    simp only [readFile, hnode]

/-- C20 at concrete inputs: the digest of `"a"` (known, its file on the disk) and calls
for the key `"b"`; the `put` writes the file of `"b"` and leaves that of `"a"`. -/
theorem per_key_frame_witness :
    calcHash sumBytes256 "a" ≠ calcHash sumBytes256 "b" ∧
    (put sumBytes256 scannedCache emptySys "b" (some [5])).val? = some none ∧
    (put sumBytes256 scannedCache emptySys "b" (some [5])).cache.knownValues
        (calcHash sumBytes256 "a") = scannedCache.knownValues (calcHash sumBytes256 "a") ∧
    readFile (put sumBytes256 scannedCache emptySys "b" (some [5])).sys.disk
        (scannedCache.folder ++ calcHash sumBytes256 "a") =
      readFile emptySys.disk (scannedCache.folder ++ calcHash sumBytes256 "a") ∧
    (get sumBytes256 scannedCache emptySys "b").sys.disk = emptySys.disk :=
  ⟨by decide, by decide,
   (per_key_frame sumBytes256 scannedCache emptySys "b" "a" (some [5]) (by decide)).2.2.1,
   (per_key_frame sumBytes256 scannedCache emptySys "b" "a" (some [5]) (by decide)).2.2.2.2.2,
   (per_key_frame sumBytes256 scannedCache emptySys "b" "a" (some [5])
     (by decide)).2.1.2.2.1⟩


end TinyHttpProxy
